import Mathlib

/-!
Shallow embedding of the Go `correlation` package of jw409/beads_viewer:
the file-to-bead reverse index (`BuildFileIndex`), its lookup wrapper
(`FileLookup` with `LookupByFile`, `LookupByFileGlob`, `GetHotspots`) and
the path-normalization helper (`normalizePath`).

Modelling conventions:
* Go strings are `List Char` (`Str`); all strings involved are treated
  character-wise, which is faithful for the ASCII constants the code uses.
* Go machine integers (`int`, line counts, `time.Time` instants) are `Int`;
  `t1.After(t2)` is `t2 < t1`.
* Go maps are association lists in insertion order, with `lookupA` /
  `insertA` as read / write.  Go's map iteration order is unspecified; where
  a result depends on it (tie-breaking in `BuildFileIndex`) the list order
  stands for one possible iteration order and map-content-equal inputs in a
  different order stand for another run.
* A nil pointer is `Option.none`; dereferencing nil (a Go panic) is
  modelled by a `none` result of the dereferencing operation.
* `sort.Slice` is modelled by `List.insertionSort` with the source's
  comparator; `sort.Slice` is not guaranteed stable, so only permutation +
  sortedness facts about the sort are used in load-bearing ways.
* `filepath.Match` is Go standard library code external to the package; it
  is a parameter `matchFn` of the glob lookup, returning `Except Unit Bool`
  (`.error ()` for `ErrBadPattern` on that pattern/name pair).
-/

namespace Correlation

/-- Go strings, modelled character-wise. -/
abbrev Str : Type := List Char

/-- Embed a Lean string literal as a `Str`. -/
def str (s : String) : Str := s.data

/-- `m[k]` read of a Go map modelled as an association list. -/
def lookupA {β : Type} (k : Str) : List (Str × β) → Option β
  | [] => none
  | (k', v) :: rest => if k = k' then some v else lookupA k rest

/-- `m[k] = v` write of a Go map: update in place, or append a new key. -/
def insertA {β : Type} (k : Str) (v : β) : List (Str × β) → List (Str × β)
  | [] => [(k, v)]
  | (k', v') :: rest => if k = k' then (k, v) :: rest else (k', v') :: insertA k v rest

/-- Modelled from the spec: `FileChange` (path, lines inserted, lines
deleted) of a CorrelatedCommit — its Go definition is outside the provided
sources; fields follow spec §3 "CorrelatedCommit … the set of file changes
(path, lines inserted, lines deleted)" and the uses in `BuildFileIndex`. -/
structure FileChange where
  Path : Str
  Insertions : Int
  Deletions : Int
deriving DecidableEq

/-- Modelled from the spec: `CorrelatedCommit` — SHA (full and short),
author identity, timestamp and file changes (spec §3); the Go definition is
outside the provided sources. The commit message is not read by the indexed
lookups and is omitted. -/
structure CorrelatedCommit where
  SHA : Str
  ShortSHA : Str
  Author : Str
  AuthorEmail : Str
  Timestamp : Int
  Files : List FileChange
deriving DecidableEq

/-- Modelled from the spec: `BeadHistory` (the spec's IssueHistory) — title,
current status, last author and the linked commits (spec §3); milestone
events are not read by the reverse index and are omitted.  The Go
definition is outside the provided sources. -/
structure BeadHistory where
  Title : Str
  Status : Str
  LastAuthor : Str
  Commits : List CorrelatedCommit
deriving DecidableEq

/-- Modelled from the spec: `HistoryReport` — bead ID → BeadHistory plus the
forward commit → bead IDs index (spec §3).  `Histories` is a Go map; the
list order stands for an iteration order. -/
structure HistoryReport where
  Histories : List (Str × BeadHistory)
  CommitIndex : List (Str × List Str)
deriving DecidableEq

/-- BeadReference links a bead to a file via commits. -/
structure BeadReference where
  BeadID : Str
  Title : Str
  Status : Str
  CommitSHAs : List Str
  LastTouch : Int
  TotalChanges : Int
deriving DecidableEq

/-- FileIndexStats contains aggregate statistics about the file index. -/
structure FileIndexStats where
  TotalFiles : Int
  TotalBeadLinks : Int
  FilesWithMultipleBeads : Int
deriving DecidableEq

/-- FileBeadIndex provides lookup from file path to beads that touched it. -/
structure FileBeadIndex where
  FileToBeads : List (Str × List BeadReference)
  Stats : FileIndexStats
deriving DecidableEq

/-- FileBeadLookupResult is the result of looking up beads for a file. -/
structure FileBeadLookupResult where
  FilePath : Str
  OpenBeads : List BeadReference
  ClosedBeads : List BeadReference
  TotalBeads : Int
deriving DecidableEq

/-- FileLookup provides file-to-bead lookup functionality. -/
structure FileLookup where
  index : FileBeadIndex
  beads : List (Str × BeadHistory)
deriving DecidableEq

/-- FileHotspot represents a file that has been touched by many beads. -/
structure FileHotspot where
  FilePath : Str
  TotalBeads : Int
  OpenBeads : Int
  ClosedBeads : Int
deriving DecidableEq

/-- `strings.ReplaceAll(path, "\\", "/")`: the pattern is a single
character, so the replacement is a character-wise map. -/
def backslashToSlash (s : Str) : Str :=
  s.map fun c => if c = '\\' then '/' else c

/-- `strings.TrimPrefix(s, pre)`: drop `pre` from the front of `s` when it
is there (once), else return `s` unchanged. -/
def stripLeading (s pre : Str) : Str :=
  if s.take pre.length = pre then s.drop pre.length else s

/-- `strings.TrimSuffix(s, suf)`: drop `suf` from the end of `s` when it is
there (once), else return `s` unchanged. -/
def stripTrailing (s suf : Str) : Str :=
  if s.drop (s.length - suf.length) = suf ∧ suf.length ≤ s.length then
    s.take (s.length - suf.length)
  else s

/-- normalizePath normalizes a file path for consistent lookup
(`normalizePath` in the source: collapse backslashes, trim one leading
"./", trim one trailing "/"). -/
def normalizePath (path : Str) : Str :=
  stripTrailing (stripLeading (backslashToSlash path) (str "./")) (str "/")

/-- containsBeadRef checks if a slice contains a bead reference with the
given ID. -/
def containsBeadRef (refs : List BeadReference) (beadID : Str) : Bool :=
  refs.any fun ref => ref.BeadID == beadID

/-- The "first occurrence seeds" step of `BuildFileIndex`: reuse the
existing reference for `(path, beadID)` or seed one from the history's
title/status and the commit's timestamp. -/
def seedRef (beadID : Str) (history : BeadHistory) (commit : CorrelatedCommit)
    (beadMap : List (Str × BeadReference)) : BeadReference :=
  match lookupA beadID beadMap with
  | some r => r
  | none =>
    { BeadID := beadID, Title := history.Title, Status := history.Status,
      CommitSHAs := [], LastTouch := commit.Timestamp, TotalChanges := 0 }

/-- "Add commit SHA if not already present" (order-preserving
de-duplication). -/
def updateSHAs (commit : CorrelatedCommit) (ref : BeadReference) : BeadReference :=
  if commit.ShortSHA ∈ ref.CommitSHAs then ref
  else { ref with CommitSHAs := ref.CommitSHAs ++ [commit.ShortSHA] }

/-- "Update last touch time if this commit is more recent". -/
def updateTouch (commit : CorrelatedCommit) (ref : BeadReference) : BeadReference :=
  if ref.LastTouch < commit.Timestamp then { ref with LastTouch := commit.Timestamp }
  else ref

/-- "Accumulate changes": add the file's insertions and deletions. -/
def updateChanges (file : FileChange) (ref : BeadReference) : BeadReference :=
  { ref with TotalChanges := ref.TotalChanges + file.Insertions + file.Deletions }

/-- The mutation steps of `BuildFileIndex` on one reference, in source
order: SHA append, last-touch advance, changed-line accumulation. -/
def updateRef (commit : CorrelatedCommit) (file : FileChange) (ref : BeadReference) :
    BeadReference :=
  updateChanges file (updateTouch commit (updateSHAs commit ref))

/-- The innermost loop body of `BuildFileIndex`: upsert the reference for
`(normalizePath file.Path, beadID)` — seed on first sight, then apply the
per-commit mutations. -/
def processFile (beadID : Str) (history : BeadHistory) (commit : CorrelatedCommit)
    (file : FileChange) (fbm : List (Str × List (Str × BeadReference))) :
    List (Str × List (Str × BeadReference)) :=
  let normalizedPath := normalizePath file.Path
  let beadMap := (lookupA normalizedPath fbm).getD []
  let ref := updateRef commit file (seedRef beadID history commit beadMap)
  insertA normalizedPath (insertA beadID ref beadMap) fbm

/-- The per-commit loop of `BuildFileIndex` over `commit.Files`. -/
def processCommit (beadID : Str) (history : BeadHistory) (commit : CorrelatedCommit)
    (fbm : List (Str × List (Str × BeadReference))) :
    List (Str × List (Str × BeadReference)) :=
  commit.Files.foldl (fun m f => processFile beadID history commit f m) fbm

/-- The per-bead loop of `BuildFileIndex` over `history.Commits`. -/
def processHistory (beadID : Str) (history : BeadHistory)
    (fbm : List (Str × List (Str × BeadReference))) :
    List (Str × List (Str × BeadReference)) :=
  history.Commits.foldl (fun m c => processCommit beadID history c m) fbm

/-- The accumulation phase of `BuildFileIndex`: fold the per-bead loop over
`report.Histories` (the list order standing for the map iteration order). -/
def buildFileBeadMap (histories : List (Str × BeadHistory)) :
    List (Str × List (Str × BeadReference)) :=
  histories.foldl (fun m e => processHistory e.1 e.2 m) []

/-- The comparator of the `sort.Slice` call in `BuildFileIndex`, as a total
order: most recent `LastTouch` first. -/
abbrev refsRel (a b : BeadReference) : Prop := b.LastTouch ≤ a.LastTouch

instance : IsTotal BeadReference refsRel :=
  ⟨fun a b => le_total b.LastTouch a.LastTouch⟩

instance : IsTrans BeadReference refsRel :=
  ⟨fun _ _ _ hab hbc => le_trans hbc hab⟩

/-- `sort.Slice(refs, …LastTouch.After…)`: sort by last touch, most recent
first.  `sort.Slice` fixes no order on ties; the model's sort is one
admissible outcome. -/
def sortRefs (refs : List BeadReference) : List BeadReference :=
  refs.insertionSort refsRel

/-- One iteration of the finalization loop of `BuildFileIndex`: flatten one
file's bead map to a sorted reference list, accumulate `totalLinks` and
`multipleBeadsCount`. -/
def finalizeStep (acc : List (Str × List BeadReference) × Int × Int)
    (e : Str × List (Str × BeadReference)) :
    List (Str × List BeadReference) × Int × Int :=
  let refs := sortRefs (e.2.map Prod.snd)
  (acc.1 ++ [(e.1, refs)],
   acc.2.1 + (refs.length : Int),
   if 1 < refs.length then acc.2.2 + 1 else acc.2.2)

/-- The finalization loop of `BuildFileIndex`, then the derived statistics. -/
def finalizeIndex (fbm : List (Str × List (Str × BeadReference))) : FileBeadIndex :=
  let acc := fbm.foldl finalizeStep ([], 0, 0)
  { FileToBeads := acc.1,
    Stats := { TotalFiles := (acc.1.length : Int), TotalBeadLinks := acc.2.1,
               FilesWithMultipleBeads := acc.2.2 } }

/-- BuildFileIndex creates a file index from a history report; a nil report
yields an empty index with zero-valued statistics. -/
def BuildFileIndex : Option HistoryReport → FileBeadIndex
  | none =>
    { FileToBeads := [],
      Stats := { TotalFiles := 0, TotalBeadLinks := 0, FilesWithMultipleBeads := 0 } }
  | some report => finalizeIndex (buildFileBeadMap report.Histories)

/-- The field read `report.Histories` on a `*HistoryReport`: dereferencing a
nil pointer is a Go panic, modelled as `none`. -/
def derefHistories : Option HistoryReport → Option (List (Str × BeadHistory))
  | none => none
  | some r => some r.Histories

/-- NewFileLookup creates a file lookup from a history report.  The Go body
reads `report.Histories` unconditionally, so a nil report panics before a
lookup can be produced — the panic is modelled as `none`. -/
def NewFileLookup (report : Option HistoryReport) : Option FileLookup :=
  (derefHistories report).map fun hs =>
    { index := BuildFileIndex report, beads := hs }

/-- The "get current status from beads map (may have changed)" step shared
by `LookupByFile` and `LookupByFileGlob`: when the bead is in the live map,
replace status and title; otherwise keep the build-time snapshot. -/
def refreshRef (beads : List (Str × BeadHistory)) (ref : BeadReference) : BeadReference :=
  match lookupA ref.BeadID beads with
  | some history => { ref with Status := history.Status, Title := history.Title }
  | none => ref

/-- The exact-match loop body of `LookupByFile`: refresh a reference and
append it to the closed or open bucket by its (refreshed) status. -/
def bucketRefresh (beads : List (Str × BeadHistory))
    (acc : List BeadReference × List BeadReference) (ref : BeadReference) :
    List BeadReference × List BeadReference :=
  let ref := refreshRef beads ref
  if ref.Status = str "closed" then (acc.1, acc.2 ++ [ref])
  else (acc.1 ++ [ref], acc.2)

/-- The directory-fallback loop body of `LookupByFile`: like
`bucketRefresh`, but skip a reference whose bead ID is already in the
target bucket (`containsBeadRef`). -/
def bucketDedup (beads : List (Str × BeadHistory))
    (acc : List BeadReference × List BeadReference) (ref : BeadReference) :
    List BeadReference × List BeadReference :=
  let ref := refreshRef beads ref
  if ref.Status = str "closed" then
    if containsBeadRef acc.2 ref.BeadID then acc else (acc.1, acc.2 ++ [ref])
  else
    if containsBeadRef acc.1 ref.BeadID then acc else (acc.1 ++ [ref], acc.2)

/-- The directory test of the fallback loop:
`strings.HasPrefix(filePath, normalizedPath+"/") ||
 strings.HasPrefix(filePath, normalizedPath+"\\")`. -/
def dirHit (normalizedPath filePath : Str) : Bool :=
  (normalizedPath ++ str "/").isPrefixOf filePath ||
  (normalizedPath ++ str "\\").isPrefixOf filePath

/-- One iteration of the outer (per-indexed-file) fallback loop of
`LookupByFile`: process a file's references only when its path passes the
directory test. -/
def dirStep (beads : List (Str × BeadHistory)) (normalizedPath : Str)
    (acc : List BeadReference × List BeadReference) (e : Str × List BeadReference) :
    List BeadReference × List BeadReference :=
  if dirHit normalizedPath e.1 then e.2.foldl (bucketDedup beads) acc else acc

/-- LookupByFile finds all beads that have touched a given file: exact
match first (refresh statuses, bucket, `TotalBeads = len(refs)`), else the
directory-prefix fallback with per-bucket bead-ID de-duplication. -/
def FileLookup.LookupByFile (fl : FileLookup) (path : Str) : FileBeadLookupResult :=
  let normalizedPath := normalizePath path
  match lookupA normalizedPath fl.index.FileToBeads with
  | some refs =>
    let buckets := refs.foldl (bucketRefresh fl.beads) ([], [])
    { FilePath := path, OpenBeads := buckets.1, ClosedBeads := buckets.2,
      TotalBeads := (refs.length : Int) }
  | none =>
    let buckets := fl.index.FileToBeads.foldl (dirStep fl.beads normalizedPath) ([], [])
    { FilePath := path, OpenBeads := buckets.1, ClosedBeads := buckets.2,
      TotalBeads := (buckets.1.length : Int) + (buckets.2.length : Int) }

/-- Accumulator of `LookupByFileGlob`: the two buckets plus the `seenOpen` /
`seenClosed` bead-ID sets used for de-duplication. -/
structure GlobAcc where
  openBeads : List BeadReference
  closedBeads : List BeadReference
  seenOpen : List Str
  seenClosed : List Str
deriving DecidableEq

/-- The per-reference loop body of `LookupByFileGlob`: refresh, then append
to the bucket for its status unless its bead ID was already seen there. -/
def globStep (beads : List (Str × BeadHistory)) (acc : GlobAcc) (ref : BeadReference) : GlobAcc :=
  let ref := refreshRef beads ref
  if ref.Status = str "closed" then
    if ref.BeadID ∈ acc.seenClosed then acc
    else { acc with closedBeads := acc.closedBeads ++ [ref],
                    seenClosed := acc.seenClosed ++ [ref.BeadID] }
  else
    if ref.BeadID ∈ acc.seenOpen then acc
    else { acc with openBeads := acc.openBeads ++ [ref],
                    seenOpen := acc.seenOpen ++ [ref.BeadID] }

/-- One iteration of the outer (per-indexed-file) loop of
`LookupByFileGlob`: process a file's references only when the match
succeeds with `true`; a `false` match or an `ErrBadPattern` error
(`err != nil || !matched`) skips the file. -/
def globFileStep (beads : List (Str × BeadHistory))
    (matchFn : Str → Str → Except Unit Bool) (pattern : Str)
    (acc : GlobAcc) (e : Str × List BeadReference) : GlobAcc :=
  match matchFn pattern e.1 with
  | Except.ok true => e.2.foldl (globStep beads) acc
  | _ => acc

/-- LookupByFileGlob finds beads for files matching a glob pattern.
`filepath.Match` is external library code, passed in as `matchFn`; a file
is processed only when the match returns `ok true` — both a `false` match
and a pattern error (`matched, err` with `err ≠ nil`) skip the file. -/
def FileLookup.LookupByFileGlob (fl : FileLookup)
    (matchFn : Str → Str → Except Unit Bool) (pattern : Str) : FileBeadLookupResult :=
  let acc := fl.index.FileToBeads.foldl (globFileStep fl.beads matchFn pattern)
    { openBeads := [], closedBeads := [], seenOpen := [], seenClosed := [] }
  { FilePath := pattern, OpenBeads := acc.openBeads, ClosedBeads := acc.closedBeads,
    TotalBeads := (acc.openBeads.length : Int) + (acc.closedBeads.length : Int) }

/-- The `fileBeadCount` rows of `GetHotspots`. -/
structure FileBeadCount where
  path : Str
  count : Int
  refs : List BeadReference
deriving DecidableEq

/-- The comparator of the `sort.Slice` call in `GetHotspots`, as a total
order: larger count first. -/
abbrev hotspotRel (a b : FileBeadCount) : Prop := b.count ≤ a.count

instance : IsTotal FileBeadCount hotspotRel :=
  ⟨fun a b => le_total b.count a.count⟩

instance : IsTrans FileBeadCount hotspotRel :=
  ⟨fun _ _ _ hab hbc => le_trans hbc hab⟩

/-- The count-then-sort phase of `GetHotspots`: one `fileBeadCount` row per
indexed file, sorted by count descending (`sort.Slice`). -/
def hotspotCounts (fl : FileLookup) : List FileBeadCount :=
  ((fl.index.FileToBeads.map fun e =>
    ({ path := e.1, count := (e.2.length : Int), refs := e.2 } : FileBeadCount)).insertionSort
    hotspotRel)

/-- The output row of `GetHotspots` for one `fileBeadCount`: the open count
is taken from the *stored* references' status snapshots (the loop reads
`ref.Status` directly, with no refresh from the live map). -/
def hotspotOf (c : FileBeadCount) : FileHotspot :=
  let openCount : Int :=
    ((c.refs.filter fun r => decide (r.Status ≠ str "closed")).length : Int)
  { FilePath := c.path, TotalBeads := c.count, OpenBeads := openCount,
    ClosedBeads := c.count - openCount }

/-- GetHotspots returns files touched by the most beads: rank by reference
count descending, clamp the limit (`limit <= 0 || limit > len(counts)`
means "all"), and emit the top rows. -/
def FileLookup.GetHotspots (fl : FileLookup) (limit : Int) : List FileHotspot :=
  let counts := hotspotCounts fl
  let limit := if limit ≤ 0 ∨ (counts.length : Int) < limit then (counts.length : Int) else limit
  (counts.take limit.toNat).map hotspotOf

/-! ### General helper lemmas -/

/-- A property preserved by each step of a left fold holds of the result. -/
theorem foldl_preserve {α σ : Type} {P : σ → Prop} {f : σ → α → σ}
    (h : ∀ s x, P s → P (f s x)) :
    ∀ (l : List α) (s : σ), P s → P (l.foldl f s) := by
  intro l
  induction l with
  | nil => exact fun s hs => hs
  | cons x xs ih => exact fun s hs => ih _ (h _ _ hs)

/-- A successful `lookupA` exhibits a member of the association list. -/
theorem lookupA_mem {β : Type} {k : Str} {v : β} :
    ∀ {m : List (Str × β)}, lookupA k m = some v → (k, v) ∈ m := by
  intro m
  induction m with
  | nil => intro h; simp [lookupA] at h
  | cons e rest ih =>
    intro h
    rw [lookupA] at h
    split at h
    · rename_i heq
      cases e
      cases h
      simp_all
    · exact List.mem_cons_of_mem _ (ih h)

/-- Backslashes are gone after `backslashToSlash`. -/
theorem not_mem_backslashToSlash (s : Str) : '\\' ∉ backslashToSlash s := by
  intro h
  rcases List.mem_map.mp h with ⟨c, _, hc⟩
  by_cases h' : c = '\\' <;> simp [h'] at hc

/-- `backslashToSlash` fixes backslash-free strings. -/
theorem backslashToSlash_id {s : Str} (h : '\\' ∉ s) : backslashToSlash s = s := by
  induction s with
  | nil => rfl
  | cons c cs ih =>
    have hc : ¬ c = '\\' := fun he => h (he ▸ List.mem_cons_self c cs)
    have hcs : '\\' ∉ cs := fun he => h (List.mem_cons_of_mem _ he)
    simp only [backslashToSlash, List.map_cons] at *
    rw [if_neg hc, ih hcs]

/-- `stripLeading` returns a subset of its input. -/
theorem stripLeading_subset (s pre : Str) : stripLeading s pre ⊆ s := by
  unfold stripLeading
  split
  · exact List.drop_subset _ _
  · exact fun _ h => h

/-- `stripTrailing` returns a subset of its input. -/
theorem stripTrailing_subset (s suf : Str) : stripTrailing s suf ⊆ s := by
  unfold stripTrailing
  split
  · exact List.take_subset _ _
  · exact fun _ h => h

/-- Normalized paths contain no backslash. -/
theorem not_mem_normalizePath (p : Str) : '\\' ∉ normalizePath p := by
  intro h
  exact not_mem_backslashToSlash p
    (stripLeading_subset _ _ (stripTrailing_subset _ _ h))

/-- `stripLeading` fixes strings not starting with the pattern. -/
theorem stripLeading_id {s pre : Str} (h : ¬ pre <+: s) : stripLeading s pre = s := by
  unfold stripLeading
  rw [if_neg]
  intro he
  exact h (List.prefix_iff_eq_take.mpr he.symm)

/-- `stripTrailing` fixes strings not ending with the pattern. -/
theorem stripTrailing_id {s suf : Str} (h : ¬ suf <:+ s) : stripTrailing s suf = s := by
  unfold stripTrailing
  rw [if_neg]
  rintro ⟨h1, _⟩
  exact h (List.suffix_iff_eq_drop.mpr h1.symm)

/-! ### Concrete fixtures (used by counterexamples and witnesses) -/

/-- A commit at timestamp 100 touching `./f.go`. -/
def cTie : CorrelatedCommit :=
  { SHA := str "abc", ShortSHA := str "a1", Author := str "A", AuthorEmail := str "a@x",
    Timestamp := 100, Files := [{ Path := str "./f.go", Insertions := 2, Deletions := 1 }] }

/-- An open bead whose only commit is `cTie`. -/
def hTieA : BeadHistory :=
  { Title := str "T1", Status := str "open", LastAuthor := str "A", Commits := [cTie] }

/-- A closed bead whose only commit touches the same file at the same
timestamp as `cTie` (an exact last-touch tie with `hTieA`). -/
def hTieB : BeadHistory :=
  { Title := str "T2", Status := str "closed", LastAuthor := str "A",
    Commits := [{ cTie with SHA := str "def", ShortSHA := str "d1" }] }

/-- A report whose `Histories` map holds beads `b1` (open) and `b2`
(closed), both touching `f.go` at timestamp 100 — iterated here as
`b1, b2`. -/
def repTieA : HistoryReport :=
  { Histories := [(str "b1", hTieA), (str "b2", hTieB)], CommitIndex := [] }

/-- The same map contents as `repTieA`, iterated as `b2, b1` — Go map
iteration order is unspecified, so both orders occur on the same report. -/
def repTieB : HistoryReport :=
  { Histories := [(str "b2", hTieB), (str "b1", hTieA)], CommitIndex := [] }

/-! ### C1 -/

/-- C1: `BuildFileIndex(nil)` does return an index with an empty mapping
and all three statistics zero — but `NewFileLookup(nil)` does NOT succeed:
its body reads `report.Histories` with no nil check, a nil-pointer
dereference (Go panic, modelled as `none`).  The claim that
`NewFileLookup(nil)` "likewise succeeds without failure" contradicts the
code; the spec's intent (construction from nil never fails, honoured by
`BuildFileIndex`) makes this a code bug. -/
theorem c1_nil_report_behaviour :
    BuildFileIndex none =
      { FileToBeads := [],
        Stats := { TotalFiles := 0, TotalBeadLinks := 0, FilesWithMultipleBeads := 0 } } ∧
    NewFileLookup none = none :=
  ⟨rfl, rfl⟩

/-! ### C2 -/

/-- C2 counterexample: path normalization is NOT idempotent.
`strings.TrimPrefix` strips at most one leading `"./"`, so
`normalizePath "././a" = "./a"`, while a second application gives `"a"`. -/
theorem c2_counterexample :
    normalizePath (normalizePath (str "././a")) ≠ normalizePath (str "././a") := by
  decide

/-- C2 amended: normalization is idempotent on every path whose normalized
form neither still starts with `"./"` nor still ends with `"/"` (trimming
is single-pass, so a doubled `"./"` or `"/"` survives one pass and is
stripped again by the next); the two concrete equalities of the claim do
hold: `normalizePath "./a/b/" = "a/b"` and `normalizePath "a\\b" = "a/b"`. -/
theorem c2_normalize_idem_amended (p : Str)
    (h1 : ¬ str "./" <+: normalizePath p)
    (h2 : ¬ str "/" <:+ normalizePath p) :
    normalizePath (normalizePath p) = normalizePath p ∧
    normalizePath (str "./a/b/") = str "a/b" ∧
    normalizePath (str "a\\b") = str "a/b" := by
  refine ⟨?_, by decide, by decide⟩
  calc normalizePath (normalizePath p)
      = stripTrailing (stripLeading (backslashToSlash (normalizePath p)) (str "./"))
          (str "/") := rfl
    _ = stripTrailing (stripLeading (normalizePath p) (str "./")) (str "/") := by
          rw [backslashToSlash_id (not_mem_normalizePath p)]
    _ = stripTrailing (normalizePath p) (str "/") := by rw [stripLeading_id h1]
    _ = normalizePath p := stripTrailing_id h2

/-- C2 witness: the amended idempotence at the concrete path `"a/b"`. -/
theorem c2_witness :
    (¬ str "./" <+: normalizePath (str "a/b")) ∧
    (¬ str "/" <:+ normalizePath (str "a/b")) ∧
    normalizePath (normalizePath (str "a/b")) = normalizePath (str "a/b") :=
  ⟨by decide, by decide,
   (c2_normalize_idem_amended (str "a/b") (by decide) (by decide)).1⟩

/-! ### C3 -/

/-- C3 counterexample: `BuildFileIndex` is NOT deterministic on a History
Report.  `repTieA` and `repTieB` are the same `Histories` map (the
association lists are permutations of each other) observed in two of Go's
unspecified map iteration orders; the two runs produce different FileIndex
values, because the per-file sort keys (last-touch timestamps) tie exactly
and the accumulation order differs. -/
theorem c3_counterexample :
    repTieA.Histories.Perm repTieB.Histories ∧
    BuildFileIndex (some repTieA) ≠ BuildFileIndex (some repTieB) :=
  ⟨by decide, by decide⟩

/-- The finalization fold appends, per accumulated file, the pair of its
path and its sorted reference list. -/
theorem finalize_foldl_fst :
    ∀ (fbm : List (Str × List (Str × BeadReference)))
      (acc : List (Str × List BeadReference) × Int × Int),
      (fbm.foldl finalizeStep acc).1 =
        acc.1 ++ fbm.map (fun e => (e.1, sortRefs (e.2.map Prod.snd))) := by
  intro fbm
  induction fbm with
  | nil => intro acc; simp
  | cons e rest ih =>
    intro acc
    rw [List.foldl_cons, ih, List.map_cons]
    show (finalizeStep acc e).1 ++ _ = _
    rw [finalizeStep]
    simp

/-- The mapping of a built index lists, for each accumulated file, its
sorted reference list. -/
theorem fileToBeads_eq (fbm : List (Str × List (Str × BeadReference))) :
    (finalizeIndex fbm).FileToBeads =
      fbm.map (fun e => (e.1, sortRefs (e.2.map Prod.snd))) := by
  show (List.foldl finalizeStep ([], 0, 0) fbm).1 = _
  rw [finalize_foldl_fst]
  simp

/-- C3 amended: each per-file reference list of a built index is sorted by
last-touch descending; but run-to-run equality of the whole FileIndex does
not hold (see the counterexample): references with exactly equal last-touch
timestamps can appear in either order, since the accumulation order follows
Go's unspecified map iteration order and `sort.Slice` is not stable. -/
theorem c3_sorted_amended (report : Option HistoryReport) (fp : Str)
    (refs : List BeadReference)
    (h : lookupA fp (BuildFileIndex report).FileToBeads = some refs) :
    List.Sorted refsRel refs := by
  cases report with
  | none => simp [BuildFileIndex, lookupA] at h
  | some rep =>
    have hmem := lookupA_mem h
    rw [show BuildFileIndex (some rep) = finalizeIndex (buildFileBeadMap rep.Histories)
          from rfl,
        fileToBeads_eq] at hmem
    rcases List.mem_map.mp hmem with ⟨e, _, he⟩
    have hrefs : refs = sortRefs (e.2.map Prod.snd) := (congrArg Prod.snd he).symm
    rw [hrefs]
    exact List.sorted_insertionSort refsRel _

/-- C3 witness: the sortedness of the concrete `f.go` reference list built
from `repTieA`. -/
theorem c3_witness :
    lookupA (str "f.go") (BuildFileIndex (some repTieA)).FileToBeads =
      some ((lookupA (str "f.go") (BuildFileIndex (some repTieA)).FileToBeads).getD []) ∧
    List.Sorted refsRel
      ((lookupA (str "f.go") (BuildFileIndex (some repTieA)).FileToBeads).getD []) :=
  ⟨by decide, c3_sorted_amended (some repTieA) (str "f.go") _ (by decide)⟩

/-! ### C8 -/

/-- Invariant of the finalization fold: the link total and multi-bead count
accumulated so far are the derived statistics of the list built so far. -/
def statsInv (acc : List (Str × List BeadReference) × Int × Int) : Prop :=
  acc.2.1 = (acc.1.map (fun e => (e.2.length : Int))).sum ∧
  acc.2.2 = ((acc.1.filter (fun e => decide (1 < e.2.length))).length : Int)

/-- Each finalization step preserves `statsInv`. -/
theorem finalizeStep_statsInv (acc : List (Str × List BeadReference) × Int × Int)
    (e : Str × List (Str × BeadReference)) (h : statsInv acc) :
    statsInv (finalizeStep acc e) := by
  obtain ⟨h1, h2⟩ := h
  unfold statsInv finalizeStep
  refine ⟨?_, ?_⟩
  · simp [h1]
  · by_cases hlen : 1 < (sortRefs (e.2.map Prod.snd)).length <;>
      simp [List.filter_append, hlen, h2]

/-- The key set of `insertA k v m` is that of `m` plus `k`. -/
theorem mem_keys_insertA {β : Type} (k : Str) (v : β) (x : Str) :
    ∀ m : List (Str × β),
      (x ∈ (insertA k v m).map Prod.fst ↔ x = k ∨ x ∈ m.map Prod.fst) := by
  intro m
  induction m with
  | nil => simp [insertA]
  | cons e rest ih =>
    obtain ⟨k', v'⟩ := e
    rw [insertA]
    split
    · rename_i heq
      subst heq
      simp only [List.map_cons, List.mem_cons]
      tauto
    · simp only [List.map_cons, List.mem_cons, ih]
      tauto

/-- `insertA` preserves distinctness of the keys. -/
theorem nodup_keys_insertA {β : Type} (k : Str) (v : β) :
    ∀ m : List (Str × β), (m.map Prod.fst).Nodup → ((insertA k v m).map Prod.fst).Nodup := by
  intro m
  induction m with
  | nil => simp [insertA]
  | cons e rest ih =>
    obtain ⟨k', v'⟩ := e
    intro h
    rw [List.map_cons, List.nodup_cons] at h
    rw [insertA]
    split
    · rename_i heq
      subst heq
      simp only [List.map_cons, List.nodup_cons]
      exact h
    · rename_i hne
      simp only [List.map_cons, List.nodup_cons]
      refine ⟨?_, ih h.2⟩
      rw [mem_keys_insertA]
      rintro (rfl | hmem)
      · exact hne rfl
      · exact h.1 hmem

/-- One accumulation step of `BuildFileIndex` preserves distinctness of the
file-path keys. -/
theorem nodup_keys_processFile (beadID : Str) (history : BeadHistory)
    (commit : CorrelatedCommit) (file : FileChange)
    (fbm : List (Str × List (Str × BeadReference)))
    (h : (fbm.map Prod.fst).Nodup) :
    ((processFile beadID history commit file fbm).map Prod.fst).Nodup := by
  unfold processFile
  exact nodup_keys_insertA _ _ _ h

/-- The file-path keys of the accumulated file→bead map are distinct. -/
theorem nodup_keys_buildFileBeadMap (histories : List (Str × BeadHistory)) :
    ((buildFileBeadMap histories).map Prod.fst).Nodup := by
  unfold buildFileBeadMap
  refine foldl_preserve (P := fun m => (List.map Prod.fst m).Nodup) ?_ _ _ (by simp)
  intro m e hm
  unfold processHistory
  refine foldl_preserve (P := fun m => (List.map Prod.fst m).Nodup) ?_ _ _ hm
  intro m c hm
  unfold processCommit
  refine foldl_preserve (P := fun m => (List.map Prod.fst m).Nodup) ?_ _ _ hm
  intro m f hm
  exact nodup_keys_processFile _ _ _ _ _ hm

/-- C8: the statistics of every built index are derived from the mapping
and mutually consistent — `TotalFiles` is the number of distinct file paths
(the key list has no duplicates and `TotalFiles` is its length),
`TotalBeadLinks` is the sum of the per-file reference-list lengths, and
`FilesWithMultipleBeads` counts exactly the files with strictly more than
one reference. -/
theorem c8_stats_consistent (report : Option HistoryReport) :
    ((BuildFileIndex report).FileToBeads.map Prod.fst).Nodup ∧
    (BuildFileIndex report).Stats.TotalFiles =
      (((BuildFileIndex report).FileToBeads.map Prod.fst).length : Int) ∧
    (BuildFileIndex report).Stats.TotalBeadLinks =
      ((BuildFileIndex report).FileToBeads.map (fun e => (e.2.length : Int))).sum ∧
    (BuildFileIndex report).Stats.FilesWithMultipleBeads =
      (((BuildFileIndex report).FileToBeads.filter
          (fun e => decide (1 < e.2.length))).length : Int) := by
  cases report with
  | none => refine ⟨by simp [BuildFileIndex], by simp [BuildFileIndex], by simp [BuildFileIndex], by simp [BuildFileIndex]⟩
  | some rep =>
    have hbuild : BuildFileIndex (some rep) = finalizeIndex (buildFileBeadMap rep.Histories) := rfl
    have hinv : statsInv ((buildFileBeadMap rep.Histories).foldl finalizeStep ([], 0, 0)) :=
      foldl_preserve finalizeStep_statsInv _ _ (by constructor <;> simp [statsInv])
    have hfst : (finalizeIndex (buildFileBeadMap rep.Histories)).FileToBeads =
        ((buildFileBeadMap rep.Histories).foldl finalizeStep ([], 0, 0)).1 := by
      show (List.foldl finalizeStep ([], 0, 0) _).1 = _
      rfl
    refine ⟨?_, ?_, ?_, ?_⟩
    · rw [hbuild, fileToBeads_eq]
      have : (List.map Prod.fst
          ((buildFileBeadMap rep.Histories).map (fun e => (e.1, sortRefs (e.2.map Prod.snd))))) =
          (buildFileBeadMap rep.Histories).map Prod.fst := by
        simp [List.map_map, Function.comp]
      rw [this]
      exact nodup_keys_buildFileBeadMap rep.Histories
    · rw [hbuild]
      show (((buildFileBeadMap rep.Histories).foldl finalizeStep ([], 0, 0)).1.length : Int) = _
      rw [← hfst]
      simp
    · rw [hbuild]
      show ((buildFileBeadMap rep.Histories).foldl finalizeStep ([], 0, 0)).2.1 = _
      rw [hinv.1, ← hfst]
    · rw [hbuild]
      show ((buildFileBeadMap rep.Histories).foldl finalizeStep ([], 0, 0)).2.2 = _
      rw [hinv.2, ← hfst]

/-! ### C9 -/

/-- `GetHotspots` unfolded to its three phases. -/
theorem getHotspots_eq (fl : FileLookup) (limit : Int) :
    fl.GetHotspots limit =
      ((hotspotCounts fl).take
        ((if limit ≤ 0 ∨ ((hotspotCounts fl).length : Int) < limit
          then ((hotspotCounts fl).length : Int) else limit).toNat)).map hotspotOf := rfl

/-- The sorted count list has one row per indexed file. -/
theorem length_hotspotCounts (fl : FileLookup) :
    (hotspotCounts fl).length = fl.index.FileToBeads.length := by
  unfold hotspotCounts
  rw [List.length_insertionSort, List.length_map]

/-- C9: `GetHotspots n` returns at most `n` entries when `n` is positive,
its output is sorted by total bead count descending, and when `n ≤ 0` or
`n` exceeds the number of indexed files it returns one entry per indexed
file (the returned paths are a permutation of the indexed paths). -/
theorem c9_hotspots_limit_sorted (fl : FileLookup) (limit : Int) :
    (0 < limit → ((fl.GetHotspots limit).length : Int) ≤ limit) ∧
    List.Sorted (fun a b : FileHotspot => b.TotalBeads ≤ a.TotalBeads) (fl.GetHotspots limit) ∧
    ((limit ≤ 0 ∨ (fl.index.FileToBeads.length : Int) < limit) →
      ((fl.GetHotspots limit).map (fun h => h.FilePath)).Perm
        (fl.index.FileToBeads.map Prod.fst)) := by
  refine ⟨?_, ?_, ?_⟩
  · intro hpos
    rw [getHotspots_eq, List.length_map, List.length_take]
    by_cases hcond : limit ≤ 0 ∨ ((hotspotCounts fl).length : Int) < limit
    · rw [if_pos hcond]
      omega
    · rw [if_neg hcond]
      omega
  · rw [getHotspots_eq]
    have hs : List.Sorted hotspotRel (hotspotCounts fl) := by
      unfold hotspotCounts
      exact List.sorted_insertionSort hotspotRel _
    rw [List.Sorted, List.pairwise_map]
    exact List.Pairwise.sublist (List.take_sublist _ _) hs
  · intro hcond
    rw [getHotspots_eq]
    have hlen := length_hotspotCounts fl
    have hcond' : limit ≤ 0 ∨ ((hotspotCounts fl).length : Int) < limit := by
      rw [hlen]; exact hcond
    rw [if_pos hcond']
    have htake : (((hotspotCounts fl).length : Int)).toNat = (hotspotCounts fl).length := by
      omega
    rw [htake, List.take_length, List.map_map]
    have hperm := (List.perm_insertionSort hotspotRel (fl.index.FileToBeads.map fun e =>
        ({ path := e.1, count := (e.2.length : Int), refs := e.2 } : FileBeadCount))).map
      ((fun h => h.FilePath) ∘ hotspotOf)
    have h2 : ((fl.index.FileToBeads.map fun e =>
        ({ path := e.1, count := (e.2.length : Int), refs := e.2 } : FileBeadCount)).map
          ((fun h => h.FilePath) ∘ hotspotOf)) = fl.index.FileToBeads.map Prod.fst := by
      rw [List.map_map]
      rfl
    exact h2 ▸ hperm

/-- A report with one open bead `b1` whose single commit touches `f.go`. -/
def repOne : HistoryReport :=
  { Histories := [(str "b1", hTieA)], CommitIndex := [] }

/-- A lookup over the `repOne` index whose live map has since marked `b1`
closed — the indexed snapshot still says open. -/
def flStale : FileLookup :=
  { index := BuildFileIndex (some repOne),
    beads := [(str "b1", { hTieA with Status := str "closed" })] }

/-- A lookup over the `repTieA` index with its own histories as the live
map (the state `NewFileLookup` constructs). -/
def flTie : FileLookup :=
  { index := BuildFileIndex (some repTieA), beads := repTieA.Histories }

/-- C9 witness: on the concrete two-file lookup `flTie`, `GetHotspots 1`
has at most one entry and `GetHotspots 0` covers every indexed file. -/
theorem c9_witness :
    ((flTie.GetHotspots 1).length : Int) ≤ 1 ∧
    ((flTie.GetHotspots 0).map (fun h => h.FilePath)).Perm
      (flTie.index.FileToBeads.map Prod.fst) :=
  ⟨(c9_hotspots_limit_sorted flTie 1).1 (by decide),
   (c9_hotspots_limit_sorted flTie 0).2.2 (Or.inl (by decide))⟩

/-! ### C5 -/

/-- C5 counterexample: `GetHotspots` does NOT use the live status.  In
`flStale` the live map's only bead `b1` is currently `"closed"`, and
`LookupByFile` duly reports it closed — but `GetHotspots` reports the file
as `1` open / `0` closed, using the `"open"` snapshot recorded at
index-build time. -/
theorem c5_counterexample :
    lookupA (str "b1") flStale.beads = some { hTieA with Status := str "closed" } ∧
    ((flStale.LookupByFile (str "f.go")).ClosedBeads.map fun r => r.BeadID) = [str "b1"] ∧
    flStale.GetHotspots 0 =
      [{ FilePath := str "f.go", TotalBeads := 1, OpenBeads := 1, ClosedBeads := 0 }] := by
  refine ⟨by decide, by decide, by decide⟩

/-- C5 amended: `LookupByFile` and `LookupByFileGlob` do refresh status and
title from the live map, but the open/closed split of every `GetHotspots`
row is computed from the status snapshots stored in the index at build
time: each row's counts are exactly the stored reference-list length and
its snapshot-status split for the corresponding indexed file. -/
theorem c5_hotspot_split_amended (fl : FileLookup) (limit : Int) (h : FileHotspot)
    (hmem : h ∈ fl.GetHotspots limit) :
    ∃ e ∈ fl.index.FileToBeads,
      h.FilePath = e.1 ∧ h.TotalBeads = (e.2.length : Int) ∧
      h.OpenBeads = ((e.2.filter fun r => decide (r.Status ≠ str "closed")).length : Int) ∧
      h.ClosedBeads = h.TotalBeads - h.OpenBeads := by
  rw [getHotspots_eq] at hmem
  rcases List.mem_map.mp hmem with ⟨c, hc, rfl⟩
  have hc' : c ∈ hotspotCounts fl := List.take_subset _ _ hc
  unfold hotspotCounts at hc'
  have hc'' := (List.perm_insertionSort hotspotRel _).mem_iff.mp hc'
  rcases List.mem_map.mp hc'' with ⟨e, he, rfl⟩
  exact ⟨e, he, rfl, rfl, rfl, rfl⟩

/-- C5 witness: the amended per-row snapshot-split fact at the concrete
stale lookup `flStale`. -/
theorem c5_witness :
    ({ FilePath := str "f.go", TotalBeads := 1, OpenBeads := 1, ClosedBeads := 0 } : FileHotspot)
      ∈ flStale.GetHotspots 0 ∧
    ∃ e ∈ flStale.index.FileToBeads,
      (str "f.go") = e.1 ∧ (1 : Int) = (e.2.length : Int) ∧
      (1 : Int) = ((e.2.filter fun r => decide (r.Status ≠ str "closed")).length : Int) ∧
      (0 : Int) = (1 : Int) - (1 : Int) :=
  ⟨by decide,
   c5_hotspot_split_amended flStale 0
     { FilePath := str "f.go", TotalBeads := 1, OpenBeads := 1, ClosedBeads := 0 }
     (by decide)⟩

/-! ### C4 -/

/-- `refreshRef` never changes the bead ID. -/
theorem refreshRef_BeadID (beads : List (Str × BeadHistory)) (ref : BeadReference) :
    (refreshRef beads ref).BeadID = ref.BeadID := by
  unfold refreshRef
  cases hlk : lookupA ref.BeadID beads <;> simp

/-- A refreshed reference whose bead is in the live map carries exactly the
live status and title. -/
theorem refreshRef_live (beads : List (Str × BeadHistory)) (ref : BeadReference)
    (history : BeadHistory)
    (h : lookupA (refreshRef beads ref).BeadID beads = some history) :
    (refreshRef beads ref).Status = history.Status ∧
    (refreshRef beads ref).Title = history.Title := by
  rw [refreshRef_BeadID] at h
  unfold refreshRef
  rw [h]
  simp

/-- A reference whose bead is missing from the live map is unchanged by the
refresh. -/
theorem refreshRef_miss (beads : List (Str × BeadHistory)) (ref : BeadReference)
    (h : lookupA ref.BeadID beads = none) :
    refreshRef beads ref = ref := by
  unfold refreshRef
  rw [h]

/-- The exact-match loop is append-to-buckets filtering: open bucket gets
the refreshed references whose status is not `"closed"`, closed bucket the
rest, in order. -/
theorem bucketRefresh_foldl (beads : List (Str × BeadHistory)) :
    ∀ (refs : List BeadReference) (o c : List BeadReference),
      refs.foldl (bucketRefresh beads) (o, c) =
        (o ++ (refs.map (refreshRef beads)).filter
            (fun r => decide (r.Status ≠ str "closed")),
         c ++ (refs.map (refreshRef beads)).filter
            (fun r => decide (r.Status = str "closed"))) := by
  intro refs
  induction refs with
  | nil => intro o c; simp
  | cons r rs ih =>
    intro o c
    rw [List.foldl_cons]
    by_cases h : (refreshRef beads r).Status = str "closed"
    · have hstep : bucketRefresh beads (o, c) r = (o, c ++ [refreshRef beads r]) := by
        unfold bucketRefresh
        rw [if_pos h]
      rw [hstep, ih]
      simp [List.filter_cons, h]
    · have hstep : bucketRefresh beads (o, c) r = (o ++ [refreshRef beads r], c) := by
        unfold bucketRefresh
        rw [if_neg h]
      rw [hstep, ih]
      simp [List.filter_cons, h]

/-- The exact-match branch of `LookupByFile`, fully described. -/
theorem lookupByFile_exact (fl : FileLookup) (path : Str) (refs : List BeadReference)
    (hexact : lookupA (normalizePath path) fl.index.FileToBeads = some refs) :
    fl.LookupByFile path =
      { FilePath := path,
        OpenBeads := (refs.map (refreshRef fl.beads)).filter
          (fun r => decide (r.Status ≠ str "closed")),
        ClosedBeads := (refs.map (refreshRef fl.beads)).filter
          (fun r => decide (r.Status = str "closed")),
        TotalBeads := (refs.length : Int) } := by
  unfold FileLookup.LookupByFile
  simp only [hexact]
  rw [bucketRefresh_foldl]
  simp

/-- C4: an exact-match `LookupByFile` returns `TotalBeads` equal to the
stored (de-duplicated) reference count for that path, and every returned
reference whose bead is in the live map carries the live status and title
— even when the index recorded different values at build time. -/
theorem c4_exact_total_and_live (fl : FileLookup) (path : Str) (refs : List BeadReference)
    (hexact : lookupA (normalizePath path) fl.index.FileToBeads = some refs) :
    (fl.LookupByFile path).TotalBeads = (refs.length : Int) ∧
    ∀ r ∈ (fl.LookupByFile path).OpenBeads ++ (fl.LookupByFile path).ClosedBeads,
      ∀ history : BeadHistory, lookupA r.BeadID fl.beads = some history →
        r.Status = history.Status ∧ r.Title = history.Title := by
  rw [lookupByFile_exact fl path refs hexact]
  refine ⟨rfl, ?_⟩
  intro r hr history hhist
  have hr' : r ∈ refs.map (refreshRef fl.beads) := by
    rcases List.mem_append.mp hr with h | h
    · exact List.mem_of_mem_filter h
    · exact List.mem_of_mem_filter h
  rcases List.mem_map.mp hr' with ⟨r0, _, rfl⟩
  exact refreshRef_live fl.beads r0 history hhist

/-- The concrete `f.go` reference list of the `repTieA` index. -/
def tieRefs : List BeadReference :=
  (lookupA (str "f.go") (BuildFileIndex (some repTieA)).FileToBeads).getD []

/-- C4 witness: the exact-match contract at the concrete lookups `flTie`
(live = build-time values) and `flStale` (live status changed to closed
after the build, and the returned reference reflects it). -/
theorem c4_witness :
    lookupA (normalizePath (str "f.go")) flTie.index.FileToBeads = some tieRefs ∧
    (flTie.LookupByFile (str "f.go")).TotalBeads = (tieRefs.length : Int) ∧
    ((flStale.LookupByFile (str "f.go")).ClosedBeads.map fun r => r.Status) =
      [str "closed"] :=
  ⟨by decide,
   (c4_exact_total_and_live flTie (str "f.go") tieRefs (by decide)).1,
   by decide⟩

/-! ### Dedup-bucket machinery shared by the directory fallback and the
glob lookup -/

/-- `containsBeadRef` decides membership of the ID among the bucket's
bead IDs. -/
theorem containsBeadRef_iff (refs : List BeadReference) (id : Str) :
    containsBeadRef refs id = true ↔ id ∈ refs.map (fun r => r.BeadID) := by
  simp only [containsBeadRef, List.any_eq_true, beq_iff_eq, List.mem_map]

/-- `bucketDedup`, closed status, ID already present: skip. -/
theorem bucketDedup_closed_skip {beads : List (Str × BeadHistory)}
    {acc : List BeadReference × List BeadReference} {ref : BeadReference}
    (h1 : (refreshRef beads ref).Status = str "closed")
    (h2 : containsBeadRef acc.2 (refreshRef beads ref).BeadID = true) :
    bucketDedup beads acc ref = acc := by
  show (if (refreshRef beads ref).Status = str "closed" then
          if containsBeadRef acc.2 (refreshRef beads ref).BeadID then acc
          else (acc.1, acc.2 ++ [refreshRef beads ref])
        else
          if containsBeadRef acc.1 (refreshRef beads ref).BeadID then acc
          else (acc.1 ++ [refreshRef beads ref], acc.2)) = acc
  rw [if_pos h1, if_pos h2]

/-- `bucketDedup`, closed status, new ID: append to the closed bucket. -/
theorem bucketDedup_closed_add {beads : List (Str × BeadHistory)}
    {acc : List BeadReference × List BeadReference} {ref : BeadReference}
    (h1 : (refreshRef beads ref).Status = str "closed")
    (h2 : ¬ containsBeadRef acc.2 (refreshRef beads ref).BeadID = true) :
    bucketDedup beads acc ref = (acc.1, acc.2 ++ [refreshRef beads ref]) := by
  show (if (refreshRef beads ref).Status = str "closed" then
          if containsBeadRef acc.2 (refreshRef beads ref).BeadID then acc
          else (acc.1, acc.2 ++ [refreshRef beads ref])
        else
          if containsBeadRef acc.1 (refreshRef beads ref).BeadID then acc
          else (acc.1 ++ [refreshRef beads ref], acc.2)) = _
  rw [if_pos h1, if_neg h2]

/-- `bucketDedup`, open status, ID already present: skip. -/
theorem bucketDedup_open_skip {beads : List (Str × BeadHistory)}
    {acc : List BeadReference × List BeadReference} {ref : BeadReference}
    (h1 : ¬ (refreshRef beads ref).Status = str "closed")
    (h2 : containsBeadRef acc.1 (refreshRef beads ref).BeadID = true) :
    bucketDedup beads acc ref = acc := by
  show (if (refreshRef beads ref).Status = str "closed" then
          if containsBeadRef acc.2 (refreshRef beads ref).BeadID then acc
          else (acc.1, acc.2 ++ [refreshRef beads ref])
        else
          if containsBeadRef acc.1 (refreshRef beads ref).BeadID then acc
          else (acc.1 ++ [refreshRef beads ref], acc.2)) = acc
  rw [if_neg h1, if_pos h2]

/-- `bucketDedup`, open status, new ID: append to the open bucket. -/
theorem bucketDedup_open_add {beads : List (Str × BeadHistory)}
    {acc : List BeadReference × List BeadReference} {ref : BeadReference}
    (h1 : ¬ (refreshRef beads ref).Status = str "closed")
    (h2 : ¬ containsBeadRef acc.1 (refreshRef beads ref).BeadID = true) :
    bucketDedup beads acc ref = (acc.1 ++ [refreshRef beads ref], acc.2) := by
  show (if (refreshRef beads ref).Status = str "closed" then
          if containsBeadRef acc.2 (refreshRef beads ref).BeadID then acc
          else (acc.1, acc.2 ++ [refreshRef beads ref])
        else
          if containsBeadRef acc.1 (refreshRef beads ref).BeadID then acc
          else (acc.1 ++ [refreshRef beads ref], acc.2)) = _
  rw [if_neg h1, if_neg h2]

/-- One `bucketDedup` step keeps every reference already in a bucket. -/
theorem bucketDedup_mono (beads : List (Str × BeadHistory))
    (acc : List BeadReference × List BeadReference) (ref : BeadReference) :
    (∀ r ∈ acc.1, r ∈ (bucketDedup beads acc ref).1) ∧
    (∀ r ∈ acc.2, r ∈ (bucketDedup beads acc ref).2) := by
  by_cases h1 : (refreshRef beads ref).Status = str "closed"
  · by_cases h2 : containsBeadRef acc.2 (refreshRef beads ref).BeadID = true
    · rw [bucketDedup_closed_skip h1 h2]
      exact ⟨fun r hr => hr, fun r hr => hr⟩
    · rw [bucketDedup_closed_add h1 h2]
      exact ⟨fun r hr => hr, fun r hr => List.mem_append_left _ hr⟩
  · by_cases h2 : containsBeadRef acc.1 (refreshRef beads ref).BeadID = true
    · rw [bucketDedup_open_skip h1 h2]
      exact ⟨fun r hr => hr, fun r hr => hr⟩
    · rw [bucketDedup_open_add h1 h2]
      exact ⟨fun r hr => List.mem_append_left _ hr, fun r hr => hr⟩

/-- One `bucketDedup` step only ever adds the refreshed reference. -/
theorem bucketDedup_sound (beads : List (Str × BeadHistory))
    (acc : List BeadReference × List BeadReference) (ref : BeadReference) :
    (∀ r ∈ (bucketDedup beads acc ref).1, r ∈ acc.1 ∨ r = refreshRef beads ref) ∧
    (∀ r ∈ (bucketDedup beads acc ref).2, r ∈ acc.2 ∨ r = refreshRef beads ref) := by
  by_cases h1 : (refreshRef beads ref).Status = str "closed"
  · by_cases h2 : containsBeadRef acc.2 (refreshRef beads ref).BeadID = true
    · rw [bucketDedup_closed_skip h1 h2]
      exact ⟨fun r hr => Or.inl hr, fun r hr => Or.inl hr⟩
    · rw [bucketDedup_closed_add h1 h2]
      refine ⟨fun r hr => Or.inl hr, fun r hr => ?_⟩
      rcases List.mem_append.mp hr with h | h
      · exact Or.inl h
      · exact Or.inr (List.mem_singleton.mp h)
  · by_cases h2 : containsBeadRef acc.1 (refreshRef beads ref).BeadID = true
    · rw [bucketDedup_open_skip h1 h2]
      exact ⟨fun r hr => Or.inl hr, fun r hr => Or.inl hr⟩
    · rw [bucketDedup_open_add h1 h2]
      refine ⟨fun r hr => ?_, fun r hr => Or.inl hr⟩
      rcases List.mem_append.mp hr with h | h
      · exact Or.inl h
      · exact Or.inr (List.mem_singleton.mp h)

/-- After one `bucketDedup` step, the processed reference's bead ID is
represented in one of the buckets. -/
theorem bucketDedup_complete (beads : List (Str × BeadHistory))
    (acc : List BeadReference × List BeadReference) (ref : BeadReference) :
    ∃ r ∈ (bucketDedup beads acc ref).1 ++ (bucketDedup beads acc ref).2,
      r.BeadID = ref.BeadID := by
  have hid := refreshRef_BeadID beads ref
  by_cases h1 : (refreshRef beads ref).Status = str "closed"
  · by_cases h2 : containsBeadRef acc.2 (refreshRef beads ref).BeadID = true
    · rw [bucketDedup_closed_skip h1 h2]
      rcases List.mem_map.mp ((containsBeadRef_iff _ _).mp h2) with ⟨r, hr, hrid⟩
      exact ⟨r, List.mem_append_right _ hr, by rw [hrid, hid]⟩
    · rw [bucketDedup_closed_add h1 h2]
      exact ⟨refreshRef beads ref,
        List.mem_append_right _ (List.mem_append_right _ (List.mem_singleton.mpr rfl)), hid⟩
  · by_cases h2 : containsBeadRef acc.1 (refreshRef beads ref).BeadID = true
    · rw [bucketDedup_open_skip h1 h2]
      rcases List.mem_map.mp ((containsBeadRef_iff _ _).mp h2) with ⟨r, hr, hrid⟩
      exact ⟨r, List.mem_append_left _ hr, by rw [hrid, hid]⟩
    · rw [bucketDedup_open_add h1 h2]
      exact ⟨refreshRef beads ref,
        List.mem_append_left _ (List.mem_append_right _ (List.mem_singleton.mpr rfl)), hid⟩

/-- One `bucketDedup` step preserves the bucket-status discipline. -/
theorem bucketDedup_status (beads : List (Str × BeadHistory))
    (acc : List BeadReference × List BeadReference) (ref : BeadReference)
    (h : (∀ r ∈ acc.1, r.Status ≠ str "closed") ∧ (∀ r ∈ acc.2, r.Status = str "closed")) :
    (∀ r ∈ (bucketDedup beads acc ref).1, r.Status ≠ str "closed") ∧
    (∀ r ∈ (bucketDedup beads acc ref).2, r.Status = str "closed") := by
  by_cases h1 : (refreshRef beads ref).Status = str "closed"
  · by_cases h2 : containsBeadRef acc.2 (refreshRef beads ref).BeadID = true
    · rw [bucketDedup_closed_skip h1 h2]; exact h
    · rw [bucketDedup_closed_add h1 h2]
      refine ⟨h.1, fun r hr => ?_⟩
      rcases List.mem_append.mp hr with hm | hm
      · exact h.2 r hm
      · rw [List.mem_singleton.mp hm]; exact h1
  · by_cases h2 : containsBeadRef acc.1 (refreshRef beads ref).BeadID = true
    · rw [bucketDedup_open_skip h1 h2]; exact h
    · rw [bucketDedup_open_add h1 h2]
      refine ⟨fun r hr => ?_, h.2⟩
      rcases List.mem_append.mp hr with hm | hm
      · exact h.1 r hm
      · rw [List.mem_singleton.mp hm]; exact h1

/-- One `bucketDedup` step preserves distinctness of each bucket's bead
IDs. -/
theorem bucketDedup_nodup (beads : List (Str × BeadHistory))
    (acc : List BeadReference × List BeadReference) (ref : BeadReference)
    (h : (acc.1.map fun r => r.BeadID).Nodup ∧ (acc.2.map fun r => r.BeadID).Nodup) :
    ((bucketDedup beads acc ref).1.map fun r => r.BeadID).Nodup ∧
    ((bucketDedup beads acc ref).2.map fun r => r.BeadID).Nodup := by
  by_cases h1 : (refreshRef beads ref).Status = str "closed"
  · by_cases h2 : containsBeadRef acc.2 (refreshRef beads ref).BeadID = true
    · rw [bucketDedup_closed_skip h1 h2]; exact h
    · rw [bucketDedup_closed_add h1 h2]
      refine ⟨h.1, ?_⟩
      rw [List.map_append, List.nodup_append]
      refine ⟨h.2, List.nodup_singleton _, ?_⟩
      intro x hx hx'
      rw [List.map_singleton, List.mem_singleton] at hx'
      subst hx'
      exact h2 ((containsBeadRef_iff _ _).mpr hx)
  · by_cases h2 : containsBeadRef acc.1 (refreshRef beads ref).BeadID = true
    · rw [bucketDedup_open_skip h1 h2]; exact h
    · rw [bucketDedup_open_add h1 h2]
      refine ⟨?_, h.2⟩
      rw [List.map_append, List.nodup_append]
      refine ⟨h.1, List.nodup_singleton _, ?_⟩
      intro x hx hx'
      rw [List.map_singleton, List.mem_singleton] at hx'
      subst hx'
      exact h2 ((containsBeadRef_iff _ _).mpr hx)

/-- Folding `bucketDedup` keeps existing bucket members. -/
theorem dedupFold_mono (beads : List (Str × BeadHistory)) :
    ∀ (rs : List BeadReference) (acc : List BeadReference × List BeadReference),
      (∀ r ∈ acc.1, r ∈ (rs.foldl (bucketDedup beads) acc).1) ∧
      (∀ r ∈ acc.2, r ∈ (rs.foldl (bucketDedup beads) acc).2) := by
  intro rs
  induction rs with
  | nil => exact fun acc => ⟨fun r hr => hr, fun r hr => hr⟩
  | cons x xs ih =>
    intro acc
    rw [List.foldl_cons]
    exact ⟨fun r hr => (ih _).1 r ((bucketDedup_mono beads acc x).1 r hr),
           fun r hr => (ih _).2 r ((bucketDedup_mono beads acc x).2 r hr)⟩

/-- Folding `bucketDedup` only adds refreshed forms of the processed
references. -/
theorem dedupFold_sound (beads : List (Str × BeadHistory)) :
    ∀ (rs : List BeadReference) (acc : List BeadReference × List BeadReference),
      (∀ r ∈ (rs.foldl (bucketDedup beads) acc).1,
        r ∈ acc.1 ∨ ∃ ref ∈ rs, r = refreshRef beads ref) ∧
      (∀ r ∈ (rs.foldl (bucketDedup beads) acc).2,
        r ∈ acc.2 ∨ ∃ ref ∈ rs, r = refreshRef beads ref) := by
  intro rs
  induction rs with
  | nil => exact fun acc => ⟨fun r hr => Or.inl hr, fun r hr => Or.inl hr⟩
  | cons x xs ih =>
    intro acc
    rw [List.foldl_cons]
    constructor
    · intro r hr
      rcases (ih _).1 r hr with h | ⟨ref, href, heq⟩
      · rcases (bucketDedup_sound beads acc x).1 r h with h' | h'
        · exact Or.inl h'
        · exact Or.inr ⟨x, List.mem_cons_self _ _, h'⟩
      · exact Or.inr ⟨ref, List.mem_cons_of_mem _ href, heq⟩
    · intro r hr
      rcases (ih _).2 r hr with h | ⟨ref, href, heq⟩
      · rcases (bucketDedup_sound beads acc x).2 r h with h' | h'
        · exact Or.inl h'
        · exact Or.inr ⟨x, List.mem_cons_self _ _, h'⟩
      · exact Or.inr ⟨ref, List.mem_cons_of_mem _ href, heq⟩

/-- After folding `bucketDedup`, every processed reference's bead ID is
represented. -/
theorem dedupFold_complete (beads : List (Str × BeadHistory)) :
    ∀ (rs : List BeadReference) (acc : List BeadReference × List BeadReference)
      (ref : BeadReference), ref ∈ rs →
      ∃ r ∈ (rs.foldl (bucketDedup beads) acc).1 ++ (rs.foldl (bucketDedup beads) acc).2,
        r.BeadID = ref.BeadID := by
  intro rs
  induction rs with
  | nil => intro acc ref h; cases h
  | cons x xs ih =>
    intro acc ref h
    rw [List.foldl_cons]
    rcases List.mem_cons.mp h with rfl | h'
    · rcases bucketDedup_complete beads acc ref with ⟨r, hr, hid⟩
      rcases List.mem_append.mp hr with hm | hm
      · exact ⟨r, List.mem_append_left _ ((dedupFold_mono beads xs _).1 r hm), hid⟩
      · exact ⟨r, List.mem_append_right _ ((dedupFold_mono beads xs _).2 r hm), hid⟩
    · exact ih _ ref h'

/-- Folding `bucketDedup` preserves the bucket-status discipline. -/
theorem dedupFold_status (beads : List (Str × BeadHistory))
    (rs : List BeadReference) (acc : List BeadReference × List BeadReference)
    (h : (∀ r ∈ acc.1, r.Status ≠ str "closed") ∧ (∀ r ∈ acc.2, r.Status = str "closed")) :
    (∀ r ∈ (rs.foldl (bucketDedup beads) acc).1, r.Status ≠ str "closed") ∧
    (∀ r ∈ (rs.foldl (bucketDedup beads) acc).2, r.Status = str "closed") :=
  foldl_preserve (fun acc x hacc => bucketDedup_status beads acc x hacc) rs acc h

/-- Folding `bucketDedup` preserves distinctness of each bucket's bead
IDs. -/
theorem dedupFold_nodup (beads : List (Str × BeadHistory))
    (rs : List BeadReference) (acc : List BeadReference × List BeadReference)
    (h : (acc.1.map fun r => r.BeadID).Nodup ∧ (acc.2.map fun r => r.BeadID).Nodup) :
    ((rs.foldl (bucketDedup beads) acc).1.map fun r => r.BeadID).Nodup ∧
    ((rs.foldl (bucketDedup beads) acc).2.map fun r => r.BeadID).Nodup :=
  foldl_preserve (fun acc x hacc => bucketDedup_nodup beads acc x hacc) rs acc h

/-- A conditional per-file dedup pass: process a file's references only
when it passes the Boolean selector.  Both outer lookup loops have this
shape — `dirStep` with the directory test, and (after the seen-set
simulation) the glob loop with the match test. -/
def condStep (beads : List (Str × BeadHistory)) (P : Str × List BeadReference → Bool)
    (acc : List BeadReference × List BeadReference) (e : Str × List BeadReference) :
    List BeadReference × List BeadReference :=
  if P e then e.2.foldl (bucketDedup beads) acc else acc

/-- `dirStep` is the conditional pass with the directory test. -/
theorem dirStep_eq_condStep (beads : List (Str × BeadHistory)) (np : Str) :
    dirStep beads np = condStep beads (fun e => dirHit np e.1) := rfl

/-- `condStep` on a selected file runs the inner dedup fold. -/
theorem condStep_hit {beads : List (Str × BeadHistory)}
    {P : Str × List BeadReference → Bool}
    {acc : List BeadReference × List BeadReference} {e : Str × List BeadReference}
    (h : P e = true) :
    condStep beads P acc e = e.2.foldl (bucketDedup beads) acc := by
  unfold condStep
  rw [if_pos h]

/-- `condStep` on a skipped file leaves the accumulator unchanged. -/
theorem condStep_miss {beads : List (Str × BeadHistory)}
    {P : Str × List BeadReference → Bool}
    {acc : List BeadReference × List BeadReference} {e : Str × List BeadReference}
    (h : ¬ P e = true) :
    condStep beads P acc e = acc := by
  unfold condStep
  rw [if_neg h]

/-- The conditional pass keeps existing bucket members. -/
theorem condFold_mono (beads : List (Str × BeadHistory))
    (P : Str × List BeadReference → Bool) :
    ∀ (entries : List (Str × List BeadReference))
      (acc : List BeadReference × List BeadReference),
      (∀ r ∈ acc.1, r ∈ (entries.foldl (condStep beads P) acc).1) ∧
      (∀ r ∈ acc.2, r ∈ (entries.foldl (condStep beads P) acc).2) := by
  intro entries
  induction entries with
  | nil => exact fun acc => ⟨fun r hr => hr, fun r hr => hr⟩
  | cons e es ih =>
    intro acc
    rw [List.foldl_cons]
    by_cases hd : P e = true
    · rw [condStep_hit hd]
      exact ⟨fun r hr => (ih _).1 r ((dedupFold_mono beads e.2 acc).1 r hr),
             fun r hr => (ih _).2 r ((dedupFold_mono beads e.2 acc).2 r hr)⟩
    · rw [condStep_miss hd]
      exact ih acc

/-- Every reference the conditional pass adds is the refreshed form of a
reference stored under a selected path. -/
theorem condFold_sound (beads : List (Str × BeadHistory))
    (P : Str × List BeadReference → Bool) :
    ∀ (entries : List (Str × List BeadReference))
      (acc : List BeadReference × List BeadReference),
      ∀ r ∈ (entries.foldl (condStep beads P) acc).1 ++
            (entries.foldl (condStep beads P) acc).2,
        (r ∈ acc.1 ∨ r ∈ acc.2) ∨
        ∃ e ∈ entries, P e = true ∧ ∃ ref ∈ e.2, r = refreshRef beads ref := by
  intro entries
  induction entries with
  | nil =>
    intro acc r hr
    exact Or.inl (List.mem_append.mp hr)
  | cons e es ih =>
    intro acc r hr
    rw [List.foldl_cons] at hr
    by_cases hd : P e = true
    · rw [condStep_hit hd] at hr
      rcases ih _ r hr with hacc | ⟨e', he', hd', ref, href, heq⟩
      · rcases hacc with h | h
        · rcases (dedupFold_sound beads e.2 acc).1 r h with h' | ⟨ref, href, heq⟩
          · exact Or.inl (Or.inl h')
          · exact Or.inr ⟨e, List.mem_cons_self _ _, hd, ref, href, heq⟩
        · rcases (dedupFold_sound beads e.2 acc).2 r h with h' | ⟨ref, href, heq⟩
          · exact Or.inl (Or.inr h')
          · exact Or.inr ⟨e, List.mem_cons_self _ _, hd, ref, href, heq⟩
      · exact Or.inr ⟨e', List.mem_cons_of_mem _ he', hd', ref, href, heq⟩
    · rw [condStep_miss hd] at hr
      rcases ih _ r hr with hacc | ⟨e', he', hd', ref, href, heq⟩
      · exact Or.inl hacc
      · exact Or.inr ⟨e', List.mem_cons_of_mem _ he', hd', ref, href, heq⟩

/-- Every bead stored under a selected path is represented in the
conditional pass's output. -/
theorem condFold_complete (beads : List (Str × BeadHistory))
    (P : Str × List BeadReference → Bool) :
    ∀ (entries : List (Str × List BeadReference))
      (acc : List BeadReference × List BeadReference)
      (e : Str × List BeadReference), e ∈ entries → P e = true →
      ∀ ref ∈ e.2,
        ∃ r ∈ (entries.foldl (condStep beads P) acc).1 ++
              (entries.foldl (condStep beads P) acc).2,
          r.BeadID = ref.BeadID := by
  intro entries
  induction entries with
  | nil => intro acc e he; cases he
  | cons y ys ih =>
    intro acc e he hd ref href
    rw [List.foldl_cons]
    rcases List.mem_cons.mp he with rfl | he'
    · rw [condStep_hit hd]
      rcases dedupFold_complete beads e.2 acc ref href with ⟨r, hr, hid⟩
      rcases List.mem_append.mp hr with hm | hm
      · exact ⟨r, List.mem_append_left _ ((condFold_mono beads P ys _).1 r hm), hid⟩
      · exact ⟨r, List.mem_append_right _ ((condFold_mono beads P ys _).2 r hm), hid⟩
    · exact ih _ e he' hd ref href

/-- The conditional pass preserves the bucket-status discipline. -/
theorem condFold_status (beads : List (Str × BeadHistory))
    (P : Str × List BeadReference → Bool)
    (entries : List (Str × List BeadReference))
    (acc : List BeadReference × List BeadReference)
    (h : (∀ r ∈ acc.1, r.Status ≠ str "closed") ∧ (∀ r ∈ acc.2, r.Status = str "closed")) :
    (∀ r ∈ (entries.foldl (condStep beads P) acc).1, r.Status ≠ str "closed") ∧
    (∀ r ∈ (entries.foldl (condStep beads P) acc).2, r.Status = str "closed") := by
  refine foldl_preserve
    (P := fun acc : List BeadReference × List BeadReference =>
      (∀ r ∈ acc.1, r.Status ≠ str "closed") ∧ (∀ r ∈ acc.2, r.Status = str "closed"))
    ?_ entries acc h
  intro acc e hacc
  by_cases hd : P e = true
  · rw [condStep_hit hd]
    exact dedupFold_status beads e.2 acc hacc
  · rw [condStep_miss hd]
    exact hacc

/-- The conditional pass preserves distinctness of each bucket's bead
IDs. -/
theorem condFold_nodup (beads : List (Str × BeadHistory))
    (P : Str × List BeadReference → Bool)
    (entries : List (Str × List BeadReference))
    (acc : List BeadReference × List BeadReference)
    (h : (acc.1.map fun r => r.BeadID).Nodup ∧ (acc.2.map fun r => r.BeadID).Nodup) :
    ((entries.foldl (condStep beads P) acc).1.map fun r => r.BeadID).Nodup ∧
    ((entries.foldl (condStep beads P) acc).2.map fun r => r.BeadID).Nodup := by
  refine foldl_preserve
    (P := fun acc : List BeadReference × List BeadReference =>
      ((acc.1.map fun r => r.BeadID).Nodup ∧ (acc.2.map fun r => r.BeadID).Nodup))
    ?_ entries acc h
  intro acc e hacc
  by_cases hd : P e = true
  · rw [condStep_hit hd]
    exact dedupFold_nodup beads e.2 acc hacc
  · rw [condStep_miss hd]
    exact hacc

/-! ### Coverage: every bead ID a built index stores is a key of the
report's `Histories`, so lookups produced by `NewFileLookup` always find
their beads in the live map -/

/-- A fold-step property only needed for members of the folded list. -/
theorem foldl_preserve_mem {α σ : Type} {P : σ → Prop} {f : σ → α → σ} :
    ∀ (l : List α), (∀ s x, x ∈ l → P s → P (f s x)) →
      ∀ (s : σ), P s → P (l.foldl f s) := by
  intro l
  induction l with
  | nil => exact fun _ s hs => hs
  | cons x xs ih =>
    intro h s hs
    exact ih (fun s y hy hsy => h s y (List.mem_cons_of_mem _ hy) hsy) _
      (h s x (List.mem_cons_self _ _) hs)

/-- A key present in an association list looks up successfully. -/
theorem lookupA_isSome_of_mem {β : Type} {k : Str} {v : β} :
    ∀ {m : List (Str × β)}, (k, v) ∈ m → (lookupA k m).isSome = true := by
  intro m
  induction m with
  | nil => intro h; cases h
  | cons e rest ih =>
    intro h
    rw [lookupA]
    split
    · rfl
    · rename_i hne
      rcases List.mem_cons.mp h with rfl | h'
      · exact absurd rfl hne
      · exact ih h'

/-- Everything in `insertA k v m` is `(k, v)` or was already in `m`. -/
theorem mem_insertA {β : Type} (k : Str) (v : β) :
    ∀ (m : List (Str × β)) (x : Str × β), x ∈ insertA k v m → x = (k, v) ∨ x ∈ m := by
  intro m
  induction m with
  | nil =>
    intro x hx
    rw [insertA] at hx
    exact Or.inl (List.mem_singleton.mp hx)
  | cons e rest ih =>
    obtain ⟨k', v'⟩ := e
    intro x hx
    rw [insertA] at hx
    split at hx
    · rcases List.mem_cons.mp hx with rfl | h'
      · exact Or.inl rfl
      · exact Or.inr (List.mem_cons_of_mem _ h')
    · rcases List.mem_cons.mp hx with rfl | h'
      · exact Or.inr (List.mem_cons_self _ _)
      · rcases ih x h' with h | h
        · exact Or.inl h
        · exact Or.inr (List.mem_cons_of_mem _ h)

/-- The per-commit mutations never change the bead ID. -/
theorem updateRef_BeadID (commit : CorrelatedCommit) (file : FileChange)
    (ref : BeadReference) : (updateRef commit file ref).BeadID = ref.BeadID := by
  unfold updateRef updateChanges updateTouch updateSHAs
  split <;> split <;> rfl

/-- The seeded reference's bead ID looks up in the live histories, given
the processed bead does and the bead map is covered. -/
theorem seedRef_cov {histories : List (Str × BeadHistory)} {beadID : Str}
    {history : BeadHistory} {commit : CorrelatedCommit}
    {beadMap : List (Str × BeadReference)}
    (hb : (lookupA beadID histories).isSome = true)
    (hbm : ∀ be ∈ beadMap, (lookupA be.2.BeadID histories).isSome = true) :
    (lookupA (seedRef beadID history commit beadMap).BeadID histories).isSome = true := by
  unfold seedRef
  cases h : lookupA beadID beadMap with
  | none => exact hb
  | some r => exact hbm (beadID, r) (lookupA_mem h)

/-- One `processFile` step preserves index-to-histories coverage, provided
the processed bead itself is a key of the histories. -/
theorem processFile_cov {histories : List (Str × BeadHistory)} {beadID : Str}
    {history : BeadHistory} {commit : CorrelatedCommit} {file : FileChange}
    {fbm : List (Str × List (Str × BeadReference))}
    (hb : (lookupA beadID histories).isSome = true)
    (hP : ∀ e ∈ fbm, ∀ be ∈ e.2, (lookupA be.2.BeadID histories).isSome = true) :
    ∀ e ∈ processFile beadID history commit file fbm, ∀ be ∈ e.2,
      (lookupA be.2.BeadID histories).isSome = true := by
  intro e he be hbe
  have hbm : ∀ be ∈ (lookupA (normalizePath file.Path) fbm).getD [],
      (lookupA be.2.BeadID histories).isSome = true := by
    cases hlk : lookupA (normalizePath file.Path) fbm with
    | none => intro be hbe; cases hbe
    | some bm0 =>
      intro be hbe
      rw [Option.getD_some] at hbe
      exact hP _ (lookupA_mem hlk) be hbe
  unfold processFile at he
  rcases mem_insertA _ _ _ e he with rfl | hold
  · rcases mem_insertA _ _ _ be hbe with rfl | holdbe
    · show (lookupA (updateRef commit file (seedRef beadID history commit
        ((lookupA (normalizePath file.Path) fbm).getD []))).BeadID histories).isSome = true
      rw [updateRef_BeadID]
      exact seedRef_cov hb hbm
    · exact hbm be holdbe
  · exact hP e hold be hbe

/-- Coverage of the whole accumulated file→bead map. -/
theorem buildMap_cov (histories : List (Str × BeadHistory)) :
    ∀ e ∈ buildFileBeadMap histories, ∀ be ∈ e.2,
      (lookupA be.2.BeadID histories).isSome = true := by
  unfold buildFileBeadMap
  refine foldl_preserve_mem
    (P := fun m : List (Str × List (Str × BeadReference)) =>
      ∀ e ∈ m, ∀ be ∈ e.2, (lookupA be.2.BeadID histories).isSome = true)
    histories ?_ [] (by intro e he; cases he)
  intro m x hx hP
  have hb : (lookupA x.1 histories).isSome = true := by
    obtain ⟨k, v⟩ := x
    exact lookupA_isSome_of_mem hx
  unfold processHistory
  refine foldl_preserve
    (P := fun m : List (Str × List (Str × BeadReference)) =>
      ∀ e ∈ m, ∀ be ∈ e.2, (lookupA be.2.BeadID histories).isSome = true)
    ?_ _ _ hP
  intro m c hm
  unfold processCommit
  refine foldl_preserve
    (P := fun m : List (Str × List (Str × BeadReference)) =>
      ∀ e ∈ m, ∀ be ∈ e.2, (lookupA be.2.BeadID histories).isSome = true)
    ?_ _ _ hm
  intro m f hm
  exact processFile_cov hb hm

/-- Coverage of the finished index: every stored reference's bead ID is a
key of the report's `Histories`. -/
theorem buildIndex_cov (report : HistoryReport) :
    ∀ e ∈ (BuildFileIndex (some report)).FileToBeads, ∀ ref ∈ e.2,
      (lookupA ref.BeadID report.Histories).isSome = true := by
  intro e he ref href
  rw [show BuildFileIndex (some report) = finalizeIndex (buildFileBeadMap report.Histories)
        from rfl,
      fileToBeads_eq] at he
  rcases List.mem_map.mp he with ⟨e0, he0, rfl⟩
  have href' : ref ∈ e0.2.map Prod.snd := by
    have := (List.perm_insertionSort refsRel (e0.2.map Prod.snd)).subset
    exact this href
  rcases List.mem_map.mp href' with ⟨be, hbe, rfl⟩
  exact buildMap_cov report.Histories e0 he0 be hbe

/-- Coverage of every lookup `NewFileLookup` actually constructs. -/
theorem newFileLookup_cov (report : HistoryReport) (fl : FileLookup)
    (h : NewFileLookup (some report) = some fl) :
    ∀ e ∈ fl.index.FileToBeads, ∀ ref ∈ e.2,
      (lookupA ref.BeadID fl.beads).isSome = true := by
  have hfl : fl = { index := BuildFileIndex (some report), beads := report.Histories } :=
    (Option.some_injective _ h.symm)
  rw [hfl]
  exact buildIndex_cov report

/-! ### C6 -/

/-- The directory-fallback branch of `LookupByFile`, fully described. -/
theorem lookupByFile_dir (fl : FileLookup) (path : Str)
    (hmiss : lookupA (normalizePath path) fl.index.FileToBeads = none) :
    fl.LookupByFile path =
      { FilePath := path,
        OpenBeads :=
          (fl.index.FileToBeads.foldl (dirStep fl.beads (normalizePath path)) ([], [])).1,
        ClosedBeads :=
          (fl.index.FileToBeads.foldl (dirStep fl.beads (normalizePath path)) ([], [])).2,
        TotalBeads :=
          (((fl.index.FileToBeads.foldl (dirStep fl.beads (normalizePath path))
              ([], [])).1.length : Int) +
           ((fl.index.FileToBeads.foldl (dirStep fl.beads (normalizePath path))
              ([], [])).2.length : Int)) } := by
  unfold FileLookup.LookupByFile
  simp only [hmiss]

/-- The directory fallback of `LookupByFile` under the coverage hypothesis
(every indexed bead ID is present in the live map): exactly the
directory-matching indexed paths contribute, every stored bead there is
represented, and no bead ID repeats. -/
theorem dirLookup_spec (fl : FileLookup) (path : Str)
    (hmiss : lookupA (normalizePath path) fl.index.FileToBeads = none)
    (hcov : ∀ e ∈ fl.index.FileToBeads, ∀ ref ∈ e.2,
      (lookupA ref.BeadID fl.beads).isSome = true) :
    (∀ r ∈ (fl.LookupByFile path).OpenBeads ++ (fl.LookupByFile path).ClosedBeads,
      ∃ e ∈ fl.index.FileToBeads, dirHit (normalizePath path) e.1 = true ∧
        ∃ ref ∈ e.2, r = refreshRef fl.beads ref) ∧
    (∀ e ∈ fl.index.FileToBeads, dirHit (normalizePath path) e.1 = true →
      ∀ ref ∈ e.2,
        ∃ r ∈ (fl.LookupByFile path).OpenBeads ++ (fl.LookupByFile path).ClosedBeads,
          r.BeadID = ref.BeadID) ∧
    (((fl.LookupByFile path).OpenBeads ++ (fl.LookupByFile path).ClosedBeads).map
      (fun r => r.BeadID)).Nodup := by
  rw [lookupByFile_dir fl path hmiss]
  refine ⟨?_, ?_, ?_⟩
  · intro r hr
    rcases condFold_sound fl.beads (fun e => dirHit (normalizePath path) e.1)
        fl.index.FileToBeads ([], []) r hr with hacc | h
    · rcases hacc with h | h <;> cases h
    · exact h
  · intro e he hd ref href
    exact condFold_complete fl.beads (fun e => dirHit (normalizePath path) e.1)
      fl.index.FileToBeads ([], []) e he hd ref href
  · have hnd := condFold_nodup fl.beads (fun e => dirHit (normalizePath path) e.1)
      fl.index.FileToBeads ([], []) ⟨List.nodup_nil, List.nodup_nil⟩
    have hst := condFold_status fl.beads (fun e => dirHit (normalizePath path) e.1)
      fl.index.FileToBeads ([], [])
      ⟨fun r hr => absurd hr (List.not_mem_nil r), fun r hr => absurd hr (List.not_mem_nil r)⟩
    rw [List.map_append, List.nodup_append]
    refine ⟨hnd.1, hnd.2, ?_⟩
    intro id hidO hidC
    rcases List.mem_map.mp hidO with ⟨r1, hr1, hid1⟩
    rcases List.mem_map.mp hidC with ⟨r2, hr2, hid2⟩
    rcases condFold_sound fl.beads (fun e => dirHit (normalizePath path) e.1)
        fl.index.FileToBeads ([], []) r1
        (List.mem_append_left _ hr1) with hacc | ⟨e1, he1, _, ref1, href1, heq1⟩
    · rcases hacc with h | h <;> cases h
    rcases condFold_sound fl.beads (fun e => dirHit (normalizePath path) e.1)
        fl.index.FileToBeads ([], []) r2
        (List.mem_append_right _ hr2) with hacc | ⟨e2, he2, _, ref2, href2, heq2⟩
    · rcases hacc with h | h <;> cases h
    rcases Option.isSome_iff_exists.mp (hcov e1 he1 ref1 href1) with ⟨h1, hh1⟩
    rcases Option.isSome_iff_exists.mp (hcov e2 he2 ref2 href2) with ⟨h2, hh2⟩
    have hid1' : r1.BeadID = ref1.BeadID := by rw [heq1, refreshRef_BeadID]
    have hid2' : r2.BeadID = ref2.BeadID := by rw [heq2, refreshRef_BeadID]
    have hsame : ref1.BeadID = ref2.BeadID := by rw [← hid1', ← hid2', hid1, hid2]
    have hh2' : lookupA ref1.BeadID fl.beads = some h2 := by rw [hsame]; exact hh2
    have hhist : h1 = h2 := Option.some_injective _ ((hh1.symm.trans hh2'))
    have hs1 : r1.Status = h1.Status := by
      rw [heq1]
      exact (refreshRef_live fl.beads ref1 h1 (by rw [refreshRef_BeadID]; exact hh1)).1
    have hs2 : r2.Status = h2.Status := by
      rw [heq2]
      exact (refreshRef_live fl.beads ref2 h2 (by rw [refreshRef_BeadID]; exact hh2)).1
    have hopen : r1.Status ≠ str "closed" := hst.1 r1 hr1
    have hclosed : r2.Status = str "closed" := hst.2 r2 hr2
    apply hopen
    rw [hs1, hhist, ← hs2]
    exact hclosed

/-- C6: for any lookup `NewFileLookup` builds, when `LookupByFile(path)`
finds no exact match it falls back to a directory lookup — exactly the
indexed paths beginning with `normalizePath path + "/"` (or the back-slash
variant, the `dirHit` test) contribute references, and bead IDs are
de-duplicated across the directory's files, so no bead ID appears twice in
the result. -/
theorem c6_dir_fallback (report : HistoryReport) (fl : FileLookup) (path : Str)
    (hfl : NewFileLookup (some report) = some fl)
    (hmiss : lookupA (normalizePath path) fl.index.FileToBeads = none) :
    (∀ r ∈ (fl.LookupByFile path).OpenBeads ++ (fl.LookupByFile path).ClosedBeads,
      ∃ e ∈ fl.index.FileToBeads, dirHit (normalizePath path) e.1 = true ∧
        ∃ ref ∈ e.2, r = refreshRef fl.beads ref) ∧
    (∀ e ∈ fl.index.FileToBeads, dirHit (normalizePath path) e.1 = true →
      ∀ ref ∈ e.2,
        ∃ r ∈ (fl.LookupByFile path).OpenBeads ++ (fl.LookupByFile path).ClosedBeads,
          r.BeadID = ref.BeadID) ∧
    (((fl.LookupByFile path).OpenBeads ++ (fl.LookupByFile path).ClosedBeads).map
      (fun r => r.BeadID)).Nodup :=
  dirLookup_spec fl path hmiss (newFileLookup_cov report fl hfl)

/-- A commit by bead `bd` touching the two files `d/x.go` and `d/y.go` of
directory `d`. -/
def cDir : CorrelatedCommit :=
  { SHA := str "abc", ShortSHA := str "a1", Author := str "A", AuthorEmail := str "a@x",
    Timestamp := 100,
    Files := [{ Path := str "d/x.go", Insertions := 2, Deletions := 1 },
              { Path := str "d/y.go", Insertions := 0, Deletions := 3 }] }

/-- The open bead owning `cDir`. -/
def hDir : BeadHistory :=
  { Title := str "TD", Status := str "open", LastAuthor := str "A", Commits := [cDir] }

/-- A report with the single bead `bd` touching both files of `d`. -/
def repDir : HistoryReport :=
  { Histories := [(str "bd", hDir)], CommitIndex := [] }

/-- The lookup `NewFileLookup` builds from `repDir`. -/
def flDir : FileLookup :=
  { index := BuildFileIndex (some repDir), beads := repDir.Histories }

/-- C6 witness: looking up the directory `d` (no exact match) in the
concrete two-file index de-duplicates bead `bd` — it appears exactly once. -/
theorem c6_witness :
    NewFileLookup (some repDir) = some flDir ∧
    lookupA (normalizePath (str "d")) flDir.index.FileToBeads = none ∧
    (((flDir.LookupByFile (str "d")).OpenBeads ++
      (flDir.LookupByFile (str "d")).ClosedBeads).map (fun r => r.BeadID)).Nodup ∧
    ((flDir.LookupByFile (str "d")).OpenBeads.map fun r => r.BeadID) = [str "bd"] :=
  ⟨rfl, by decide,
   (c6_dir_fallback repDir flDir (str "d") rfl (by decide)).2.2,
   by decide⟩

/-! ### C7 -/

/-- The two bucket lists of a glob accumulator. -/
def globBuckets (acc : GlobAcc) : List BeadReference × List BeadReference :=
  (acc.openBeads, acc.closedBeads)

/-- Invariant of the glob loop: each seen set is exactly the bead-ID list
of its bucket. -/
def seenInv (acc : GlobAcc) : Prop :=
  acc.seenOpen = acc.openBeads.map (fun r => r.BeadID) ∧
  acc.seenClosed = acc.closedBeads.map (fun r => r.BeadID)

/-- `globStep`, closed status, ID already seen: skip. -/
theorem globStep_closed_skip {beads : List (Str × BeadHistory)} {acc : GlobAcc}
    {ref : BeadReference}
    (h1 : (refreshRef beads ref).Status = str "closed")
    (h2 : (refreshRef beads ref).BeadID ∈ acc.seenClosed) :
    globStep beads acc ref = acc := by
  show (if (refreshRef beads ref).Status = str "closed" then
          if (refreshRef beads ref).BeadID ∈ acc.seenClosed then acc
          else { acc with closedBeads := acc.closedBeads ++ [refreshRef beads ref],
                          seenClosed := acc.seenClosed ++ [(refreshRef beads ref).BeadID] }
        else
          if (refreshRef beads ref).BeadID ∈ acc.seenOpen then acc
          else { acc with openBeads := acc.openBeads ++ [refreshRef beads ref],
                          seenOpen := acc.seenOpen ++ [(refreshRef beads ref).BeadID] }) = acc
  rw [if_pos h1, if_pos h2]

/-- `globStep`, closed status, new ID: append to bucket and seen set. -/
theorem globStep_closed_add {beads : List (Str × BeadHistory)} {acc : GlobAcc}
    {ref : BeadReference}
    (h1 : (refreshRef beads ref).Status = str "closed")
    (h2 : ¬ (refreshRef beads ref).BeadID ∈ acc.seenClosed) :
    globStep beads acc ref =
      { acc with closedBeads := acc.closedBeads ++ [refreshRef beads ref],
                 seenClosed := acc.seenClosed ++ [(refreshRef beads ref).BeadID] } := by
  show (if (refreshRef beads ref).Status = str "closed" then
          if (refreshRef beads ref).BeadID ∈ acc.seenClosed then acc
          else { acc with closedBeads := acc.closedBeads ++ [refreshRef beads ref],
                          seenClosed := acc.seenClosed ++ [(refreshRef beads ref).BeadID] }
        else
          if (refreshRef beads ref).BeadID ∈ acc.seenOpen then acc
          else { acc with openBeads := acc.openBeads ++ [refreshRef beads ref],
                          seenOpen := acc.seenOpen ++ [(refreshRef beads ref).BeadID] }) = _
  rw [if_pos h1, if_neg h2]

/-- `globStep`, open status, ID already seen: skip. -/
theorem globStep_open_skip {beads : List (Str × BeadHistory)} {acc : GlobAcc}
    {ref : BeadReference}
    (h1 : ¬ (refreshRef beads ref).Status = str "closed")
    (h2 : (refreshRef beads ref).BeadID ∈ acc.seenOpen) :
    globStep beads acc ref = acc := by
  show (if (refreshRef beads ref).Status = str "closed" then
          if (refreshRef beads ref).BeadID ∈ acc.seenClosed then acc
          else { acc with closedBeads := acc.closedBeads ++ [refreshRef beads ref],
                          seenClosed := acc.seenClosed ++ [(refreshRef beads ref).BeadID] }
        else
          if (refreshRef beads ref).BeadID ∈ acc.seenOpen then acc
          else { acc with openBeads := acc.openBeads ++ [refreshRef beads ref],
                          seenOpen := acc.seenOpen ++ [(refreshRef beads ref).BeadID] }) = acc
  rw [if_neg h1, if_pos h2]

/-- `globStep`, open status, new ID: append to bucket and seen set. -/
theorem globStep_open_add {beads : List (Str × BeadHistory)} {acc : GlobAcc}
    {ref : BeadReference}
    (h1 : ¬ (refreshRef beads ref).Status = str "closed")
    (h2 : ¬ (refreshRef beads ref).BeadID ∈ acc.seenOpen) :
    globStep beads acc ref =
      { acc with openBeads := acc.openBeads ++ [refreshRef beads ref],
                 seenOpen := acc.seenOpen ++ [(refreshRef beads ref).BeadID] } := by
  show (if (refreshRef beads ref).Status = str "closed" then
          if (refreshRef beads ref).BeadID ∈ acc.seenClosed then acc
          else { acc with closedBeads := acc.closedBeads ++ [refreshRef beads ref],
                          seenClosed := acc.seenClosed ++ [(refreshRef beads ref).BeadID] }
        else
          if (refreshRef beads ref).BeadID ∈ acc.seenOpen then acc
          else { acc with openBeads := acc.openBeads ++ [refreshRef beads ref],
                          seenOpen := acc.seenOpen ++ [(refreshRef beads ref).BeadID] }) = _
  rw [if_neg h1, if_neg h2]

/-- Under `seenInv`, the seen-set test of `globStep` coincides with the
bucket-scan test of `bucketDedup`, so one glob step projects to one
`bucketDedup` step. -/
theorem globStep_sim (beads : List (Str × BeadHistory)) (acc : GlobAcc)
    (ref : BeadReference) (h : seenInv acc) :
    seenInv (globStep beads acc ref) ∧
    globBuckets (globStep beads acc ref) = bucketDedup beads (globBuckets acc) ref := by
  obtain ⟨hO, hC⟩ := h
  by_cases h1 : (refreshRef beads ref).Status = str "closed"
  · by_cases h2 : (refreshRef beads ref).BeadID ∈ acc.seenClosed
    · rw [globStep_closed_skip h1 h2]
      have h2' : containsBeadRef (globBuckets acc).2 (refreshRef beads ref).BeadID = true := by
        rw [containsBeadRef_iff]
        rw [hC] at h2
        exact h2
      rw [bucketDedup_closed_skip h1 h2']
      exact ⟨⟨hO, hC⟩, rfl⟩
    · rw [globStep_closed_add h1 h2]
      have h2' : ¬ containsBeadRef (globBuckets acc).2 (refreshRef beads ref).BeadID = true := by
        rw [containsBeadRef_iff]
        rw [hC] at h2
        exact h2
      rw [bucketDedup_closed_add h1 h2']
      refine ⟨⟨hO, ?_⟩, rfl⟩
      show acc.seenClosed ++ [(refreshRef beads ref).BeadID] =
        (acc.closedBeads ++ [refreshRef beads ref]).map (fun r => r.BeadID)
      rw [List.map_append, ← hC]
      rfl
  · by_cases h2 : (refreshRef beads ref).BeadID ∈ acc.seenOpen
    · rw [globStep_open_skip h1 h2]
      have h2' : containsBeadRef (globBuckets acc).1 (refreshRef beads ref).BeadID = true := by
        rw [containsBeadRef_iff]
        rw [hO] at h2
        exact h2
      rw [bucketDedup_open_skip h1 h2']
      exact ⟨⟨hO, hC⟩, rfl⟩
    · rw [globStep_open_add h1 h2]
      have h2' : ¬ containsBeadRef (globBuckets acc).1 (refreshRef beads ref).BeadID = true := by
        rw [containsBeadRef_iff]
        rw [hO] at h2
        exact h2
      rw [bucketDedup_open_add h1 h2']
      refine ⟨⟨?_, hC⟩, rfl⟩
      show acc.seenOpen ++ [(refreshRef beads ref).BeadID] =
        (acc.openBeads ++ [refreshRef beads ref]).map (fun r => r.BeadID)
      rw [List.map_append, ← hO]
      rfl

/-- The inner glob fold projects to the `bucketDedup` fold. -/
theorem globFold_sim (beads : List (Str × BeadHistory)) :
    ∀ (rs : List BeadReference) (acc : GlobAcc), seenInv acc →
      seenInv (rs.foldl (globStep beads) acc) ∧
      globBuckets (rs.foldl (globStep beads) acc) =
        rs.foldl (bucketDedup beads) (globBuckets acc) := by
  intro rs
  induction rs with
  | nil => exact fun acc h => ⟨h, rfl⟩
  | cons x xs ih =>
    intro acc h
    rw [List.foldl_cons, List.foldl_cons]
    obtain ⟨hstep, heq⟩ := globStep_sim beads acc x h
    obtain ⟨hfold, heq2⟩ := ih _ hstep
    exact ⟨hfold, by rw [heq2, heq]⟩

/-- The glob loop's file selector, as a Boolean: process a file only when
the match returns `ok true`. -/
def globSel (matchFn : Str → Str → Except Unit Bool) (pattern : Str)
    (e : Str × List BeadReference) : Bool :=
  match matchFn pattern e.1 with
  | Except.ok true => true
  | _ => false

/-- The selector fires exactly on an `ok true` match. -/
theorem globSel_iff (matchFn : Str → Str → Except Unit Bool) (pattern : Str)
    (e : Str × List BeadReference) :
    globSel matchFn pattern e = true ↔ matchFn pattern e.1 = Except.ok true := by
  unfold globSel
  cases hv : matchFn pattern e.1 with
  | error u => simp
  | ok b => cases b <;> simp

/-- `globFileStep` on an `ok true` match runs the inner glob fold. -/
theorem globFileStep_hit {beads : List (Str × BeadHistory)}
    {matchFn : Str → Str → Except Unit Bool} {pattern : Str} {acc : GlobAcc}
    {e : Str × List BeadReference}
    (hm : matchFn pattern e.1 = Except.ok true) :
    globFileStep beads matchFn pattern acc e = e.2.foldl (globStep beads) acc := by
  unfold globFileStep
  rw [hm]

/-- `globFileStep` on a `false` match or a pattern error skips the file. -/
theorem globFileStep_miss {beads : List (Str × BeadHistory)}
    {matchFn : Str → Str → Except Unit Bool} {pattern : Str} {acc : GlobAcc}
    {e : Str × List BeadReference}
    (hm : ¬ matchFn pattern e.1 = Except.ok true) :
    globFileStep beads matchFn pattern acc e = acc := by
  unfold globFileStep
  cases hv : matchFn pattern e.1 with
  | error u => rfl
  | ok b =>
    cases b with
    | false => rfl
    | true => exact absurd hv hm

/-- The outer glob loop projects to the conditional dedup pass with the
match selector. -/
theorem globOuter_sim (beads : List (Str × BeadHistory))
    (matchFn : Str → Str → Except Unit Bool) (pattern : Str) :
    ∀ (entries : List (Str × List BeadReference)) (acc : GlobAcc), seenInv acc →
      seenInv (entries.foldl (globFileStep beads matchFn pattern) acc) ∧
      globBuckets (entries.foldl (globFileStep beads matchFn pattern) acc) =
        entries.foldl (condStep beads (globSel matchFn pattern)) (globBuckets acc) := by
  intro entries
  induction entries with
  | nil => exact fun acc h => ⟨h, rfl⟩
  | cons e es ih =>
    intro acc h
    rw [List.foldl_cons, List.foldl_cons]
    by_cases hm : matchFn pattern e.1 = Except.ok true
    · rw [globFileStep_hit hm, condStep_hit ((globSel_iff matchFn pattern e).mpr hm)]
      obtain ⟨hstep, heq⟩ := globFold_sim beads e.2 acc h
      obtain ⟨hfold, heq2⟩ := ih _ hstep
      exact ⟨hfold, by rw [heq2, heq]⟩
    · rw [globFileStep_miss hm,
          condStep_miss (fun hc => hm ((globSel_iff matchFn pattern e).mp hc))]
      exact ih acc h

/-- `LookupByFileGlob`, fully described through the conditional dedup
pass. -/
theorem lookupByFileGlob_eq (fl : FileLookup)
    (matchFn : Str → Str → Except Unit Bool) (pattern : Str) :
    fl.LookupByFileGlob matchFn pattern =
      { FilePath := pattern,
        OpenBeads := (fl.index.FileToBeads.foldl
          (condStep fl.beads (globSel matchFn pattern)) ([], [])).1,
        ClosedBeads := (fl.index.FileToBeads.foldl
          (condStep fl.beads (globSel matchFn pattern)) ([], [])).2,
        TotalBeads :=
          (((fl.index.FileToBeads.foldl
              (condStep fl.beads (globSel matchFn pattern)) ([], [])).1.length : Int) +
           ((fl.index.FileToBeads.foldl
              (condStep fl.beads (globSel matchFn pattern)) ([], [])).2.length : Int)) } := by
  obtain ⟨_, heq⟩ := globOuter_sim fl.beads matchFn pattern fl.index.FileToBeads
    { openBeads := [], closedBeads := [], seenOpen := [], seenClosed := [] } ⟨rfl, rfl⟩
  have h1 : (fl.index.FileToBeads.foldl (globFileStep fl.beads matchFn pattern)
      { openBeads := [], closedBeads := [], seenOpen := [], seenClosed := [] }).openBeads =
      (fl.index.FileToBeads.foldl
        (condStep fl.beads (globSel matchFn pattern)) ([], [])).1 :=
    congrArg Prod.fst heq
  have h2 : (fl.index.FileToBeads.foldl (globFileStep fl.beads matchFn pattern)
      { openBeads := [], closedBeads := [], seenOpen := [], seenClosed := [] }).closedBeads =
      (fl.index.FileToBeads.foldl
        (condStep fl.beads (globSel matchFn pattern)) ([], [])).2 :=
    congrArg Prod.snd heq
  show ({ FilePath := pattern,
          OpenBeads := (fl.index.FileToBeads.foldl (globFileStep fl.beads matchFn pattern)
            { openBeads := [], closedBeads := [], seenOpen := [], seenClosed := [] }).openBeads,
          ClosedBeads := (fl.index.FileToBeads.foldl (globFileStep fl.beads matchFn pattern)
            { openBeads := [], closedBeads := [], seenOpen := [], seenClosed := [] }).closedBeads,
          TotalBeads :=
            (((fl.index.FileToBeads.foldl (globFileStep fl.beads matchFn pattern)
                { openBeads := [], closedBeads := [], seenOpen := [],
                  seenClosed := [] }).openBeads.length : Int) +
             ((fl.index.FileToBeads.foldl (globFileStep fl.beads matchFn pattern)
                { openBeads := [], closedBeads := [], seenOpen := [],
                  seenClosed := [] }).closedBeads.length : Int)) } : FileBeadLookupResult) = _
  rw [h1, h2]

/-- C7: `LookupByFileGlob` is total for every pattern and matcher
behaviour — a pattern error on a file skips exactly that file (only files
whose match returns `ok true` contribute, so an always-erroring pattern
yields the well-formed empty result) — and the result is de-duplicated by
bead ID, with `TotalBeads` the size of the two buckets.  The coverage
hypothesis (every indexed bead ID is in the live map, the state
`NewFileLookup` constructs) is what keeps one bead out of both buckets. -/
theorem globLookup_spec (fl : FileLookup)
    (matchFn : Str → Str → Except Unit Bool) (pattern : Str)
    (hcov : ∀ e ∈ fl.index.FileToBeads, ∀ ref ∈ e.2,
      (lookupA ref.BeadID fl.beads).isSome = true) :
    (∀ r ∈ (fl.LookupByFileGlob matchFn pattern).OpenBeads ++
           (fl.LookupByFileGlob matchFn pattern).ClosedBeads,
      ∃ e ∈ fl.index.FileToBeads, matchFn pattern e.1 = Except.ok true ∧
        ∃ ref ∈ e.2, r = refreshRef fl.beads ref) ∧
    (∀ e ∈ fl.index.FileToBeads, matchFn pattern e.1 = Except.ok true →
      ∀ ref ∈ e.2,
        ∃ r ∈ (fl.LookupByFileGlob matchFn pattern).OpenBeads ++
              (fl.LookupByFileGlob matchFn pattern).ClosedBeads,
          r.BeadID = ref.BeadID) ∧
    (((fl.LookupByFileGlob matchFn pattern).OpenBeads ++
      (fl.LookupByFileGlob matchFn pattern).ClosedBeads).map (fun r => r.BeadID)).Nodup ∧
    (fl.LookupByFileGlob matchFn pattern).TotalBeads =
      ((fl.LookupByFileGlob matchFn pattern).OpenBeads.length : Int) +
      ((fl.LookupByFileGlob matchFn pattern).ClosedBeads.length : Int) := by
  rw [lookupByFileGlob_eq fl matchFn pattern]
  refine ⟨?_, ?_, ?_, rfl⟩
  · intro r hr
    rcases condFold_sound fl.beads (globSel matchFn pattern)
        fl.index.FileToBeads ([], []) r hr with hacc | ⟨e, he, hd, ref, href, heq⟩
    · rcases hacc with h | h <;> cases h
    · exact ⟨e, he, (globSel_iff matchFn pattern e).mp hd, ref, href, heq⟩
  · intro e he hm ref href
    exact condFold_complete fl.beads (globSel matchFn pattern) fl.index.FileToBeads
      ([], []) e he ((globSel_iff matchFn pattern e).mpr hm) ref href
  · have hnd := condFold_nodup fl.beads (globSel matchFn pattern)
      fl.index.FileToBeads ([], []) ⟨List.nodup_nil, List.nodup_nil⟩
    have hst := condFold_status fl.beads (globSel matchFn pattern)
      fl.index.FileToBeads ([], [])
      ⟨fun r hr => absurd hr (List.not_mem_nil r), fun r hr => absurd hr (List.not_mem_nil r)⟩
    rw [List.map_append, List.nodup_append]
    refine ⟨hnd.1, hnd.2, ?_⟩
    intro id hidO hidC
    rcases List.mem_map.mp hidO with ⟨r1, hr1, hid1⟩
    rcases List.mem_map.mp hidC with ⟨r2, hr2, hid2⟩
    rcases condFold_sound fl.beads (globSel matchFn pattern)
        fl.index.FileToBeads ([], []) r1
        (List.mem_append_left _ hr1) with hacc | ⟨e1, he1, _, ref1, href1, heq1⟩
    · rcases hacc with h | h <;> cases h
    rcases condFold_sound fl.beads (globSel matchFn pattern)
        fl.index.FileToBeads ([], []) r2
        (List.mem_append_right _ hr2) with hacc | ⟨e2, he2, _, ref2, href2, heq2⟩
    · rcases hacc with h | h <;> cases h
    rcases Option.isSome_iff_exists.mp (hcov e1 he1 ref1 href1) with ⟨h1, hh1⟩
    rcases Option.isSome_iff_exists.mp (hcov e2 he2 ref2 href2) with ⟨h2, hh2⟩
    have hid1' : r1.BeadID = ref1.BeadID := by rw [heq1, refreshRef_BeadID]
    have hid2' : r2.BeadID = ref2.BeadID := by rw [heq2, refreshRef_BeadID]
    have hsame : ref1.BeadID = ref2.BeadID := by rw [← hid1', ← hid2', hid1, hid2]
    have hh2' : lookupA ref1.BeadID fl.beads = some h2 := by rw [hsame]; exact hh2
    have hhist : h1 = h2 := Option.some_injective _ ((hh1.symm.trans hh2'))
    have hs1 : r1.Status = h1.Status := by
      rw [heq1]
      exact (refreshRef_live fl.beads ref1 h1 (by rw [refreshRef_BeadID]; exact hh1)).1
    have hs2 : r2.Status = h2.Status := by
      rw [heq2]
      exact (refreshRef_live fl.beads ref2 h2 (by rw [refreshRef_BeadID]; exact hh2)).1
    have hopen : r1.Status ≠ str "closed" := hst.1 r1 hr1
    have hclosed : r2.Status = str "closed" := hst.2 r2 hr2
    apply hopen
    rw [hs1, hhist, ← hs2]
    exact hclosed

/-- C7: for any lookup `NewFileLookup` builds, `LookupByFileGlob` never
fails for any pattern: only files whose match returns `ok true` contribute
(a pattern error on a file silently skips that file, so an always-erroring
malformed pattern yields the well-formed empty result), every bead of a
matching file is represented, the result is de-duplicated by bead ID, and
`TotalBeads` is the size of the two buckets. -/
theorem c7_glob_skips_errors_dedups (report : HistoryReport) (fl : FileLookup)
    (matchFn : Str → Str → Except Unit Bool) (pattern : Str)
    (hfl : NewFileLookup (some report) = some fl) :
    (∀ r ∈ (fl.LookupByFileGlob matchFn pattern).OpenBeads ++
           (fl.LookupByFileGlob matchFn pattern).ClosedBeads,
      ∃ e ∈ fl.index.FileToBeads, matchFn pattern e.1 = Except.ok true ∧
        ∃ ref ∈ e.2, r = refreshRef fl.beads ref) ∧
    (∀ e ∈ fl.index.FileToBeads, matchFn pattern e.1 = Except.ok true →
      ∀ ref ∈ e.2,
        ∃ r ∈ (fl.LookupByFileGlob matchFn pattern).OpenBeads ++
              (fl.LookupByFileGlob matchFn pattern).ClosedBeads,
          r.BeadID = ref.BeadID) ∧
    (((fl.LookupByFileGlob matchFn pattern).OpenBeads ++
      (fl.LookupByFileGlob matchFn pattern).ClosedBeads).map (fun r => r.BeadID)).Nodup ∧
    (fl.LookupByFileGlob matchFn pattern).TotalBeads =
      ((fl.LookupByFileGlob matchFn pattern).OpenBeads.length : Int) +
      ((fl.LookupByFileGlob matchFn pattern).ClosedBeads.length : Int) :=
  globLookup_spec fl matchFn pattern (newFileLookup_cov report fl hfl)

/-- A matcher that reports `ErrBadPattern` on every file (an always
malformed pattern). -/
def matchErr : Str → Str → Except Unit Bool := fun _ _ => Except.error ()

/-- A matcher that matches every file (e.g. the pattern `"*"` restricted to
separator-free names). -/
def matchAll : Str → Str → Except Unit Bool := fun _ _ => Except.ok true

/-- C7 witness: on the concrete index `flDir`, an all-error matcher yields
the well-formed empty result without failing, and an all-match pattern
returns bead `bd` exactly once across both files. -/
theorem c7_witness :
    flDir.LookupByFileGlob matchErr (str "[") =
      { FilePath := str "[", OpenBeads := [], ClosedBeads := [], TotalBeads := 0 } ∧
    ((flDir.LookupByFileGlob matchAll (str "*")).OpenBeads.map fun r => r.BeadID) =
      [str "bd"] ∧
    (((flDir.LookupByFileGlob matchAll (str "*")).OpenBeads ++
      (flDir.LookupByFileGlob matchAll (str "*")).ClosedBeads).map
        (fun r => r.BeadID)).Nodup :=
  ⟨by decide, by decide,
   (c7_glob_skips_errors_dedups repDir flDir matchAll (str "*") rfl).2.2.1⟩

/-! ### C10 -/

/-- C10: a reference whose bead ID is absent from the live map is still
returned without error, keeping its build-time snapshot — `LookupByFile`
(exact match) returns the reference itself, bucketed by its snapshot
status with its snapshot title intact; and for any matching file of
`LookupByFileGlob`, the result holds a reference with that bead ID which
is literally one of the index's stored (build-time snapshot) references —
its own live lookup also misses, so the refresh left it unchanged — and it
is bucketed into open/closed by that stale snapshot status. -/
theorem c10_missing_bead_keeps_snapshot (fl : FileLookup) (path : Str)
    (refs : List BeadReference) (ref : BeadReference)
    (hexact : lookupA (normalizePath path) fl.index.FileToBeads = some refs)
    (hmem : ref ∈ refs) (hmiss : lookupA ref.BeadID fl.beads = none) :
    ((ref.Status = str "closed" → ref ∈ (fl.LookupByFile path).ClosedBeads) ∧
     (ref.Status ≠ str "closed" → ref ∈ (fl.LookupByFile path).OpenBeads)) ∧
    ∀ (matchFn : Str → Str → Except Unit Bool) (pattern : Str)
      (e : Str × List BeadReference), e ∈ fl.index.FileToBeads →
      matchFn pattern e.1 = Except.ok true → ref ∈ e.2 →
      ∃ r ∈ (fl.LookupByFileGlob matchFn pattern).OpenBeads ++
            (fl.LookupByFileGlob matchFn pattern).ClosedBeads,
        r.BeadID = ref.BeadID ∧
        (∃ e' ∈ fl.index.FileToBeads,
          matchFn pattern e'.1 = Except.ok true ∧ r ∈ e'.2) ∧
        lookupA r.BeadID fl.beads = none ∧
        (r.Status = str "closed" →
          r ∈ (fl.LookupByFileGlob matchFn pattern).ClosedBeads) ∧
        (r.Status ≠ str "closed" →
          r ∈ (fl.LookupByFileGlob matchFn pattern).OpenBeads) := by
  have hfix : refreshRef fl.beads ref = ref := refreshRef_miss fl.beads ref hmiss
  constructor
  · rw [lookupByFile_exact fl path refs hexact]
    have hmm : ref ∈ refs.map (refreshRef fl.beads) :=
      List.mem_map.mpr ⟨ref, hmem, hfix⟩
    constructor
    · intro hclosed
      exact List.mem_filter.mpr ⟨hmm, by simp [hclosed]⟩
    · intro hopen
      exact List.mem_filter.mpr ⟨hmm, by simp [hopen]⟩
  · intro matchFn pattern e he hm href
    rw [lookupByFileGlob_eq fl matchFn pattern]
    rcases condFold_complete fl.beads (globSel matchFn pattern) fl.index.FileToBeads
        ([], []) e he ((globSel_iff matchFn pattern e).mpr hm) ref href with ⟨r, hr, hid⟩
    refine ⟨r, hr, hid, ?_⟩
    rcases condFold_sound fl.beads (globSel matchFn pattern)
        fl.index.FileToBeads ([], []) r hr with hacc | ⟨e', he', hsel, ref0, href0, heq⟩
    · rcases hacc with h | h <;> cases h
    have hid0 : r.BeadID = ref0.BeadID := by rw [heq, refreshRef_BeadID]
    have hmiss0 : lookupA ref0.BeadID fl.beads = none := by
      rw [← hid0, hid]
      exact hmiss
    have hr0 : r = ref0 := by
      rw [heq]
      exact refreshRef_miss fl.beads ref0 hmiss0
    have hst := condFold_status fl.beads (globSel matchFn pattern)
      fl.index.FileToBeads ([], [])
      ⟨fun r hr => absurd hr (List.not_mem_nil r), fun r hr => absurd hr (List.not_mem_nil r)⟩
    refine ⟨⟨e', he', (globSel_iff matchFn pattern e').mp hsel, hr0 ▸ href0⟩,
            by rw [hid]; exact hmiss, ?_, ?_⟩
    · intro hclosed
      rcases List.mem_append.mp hr with hmO | hmC
      · exact absurd hclosed (hst.1 r hmO)
      · exact hmC
    · intro hopen
      rcases List.mem_append.mp hr with hmO | hmC
      · exact hmO
      · exact absurd (hst.2 r hmC) hopen

/-- A lookup over the `repOne` index whose live map is empty: bead `b1` is
missing from it. -/
def flMiss : FileLookup :=
  { index := BuildFileIndex (some repOne), beads := [] }

/-- The `f.go` reference list of the `repOne` index. -/
def oneRefs : List BeadReference :=
  (lookupA (str "f.go") (BuildFileIndex (some repOne)).FileToBeads).getD []

/-- The single reference the `repOne` index stores for `f.go`: bead `b1`
with its build-time snapshot (status `"open"`, title `"T1"`). -/
def oneRef : BeadReference :=
  { BeadID := str "b1", Title := str "T1", Status := str "open",
    CommitSHAs := [str "a1"], LastTouch := 100, TotalChanges := 3 }

/-- C10 witness: with an empty live map, the concrete reference `oneRef`
(snapshot status `"open"`) is returned unchanged in the open bucket by the
exact-match lookup, and the glob lookup under an all-match pattern returns
a stored snapshot reference with `oneRef`'s bead ID, bucketed by its
snapshot status. -/
theorem c10_witness :
    lookupA (oneRef.BeadID) flMiss.beads = none ∧
    oneRef ∈ (flMiss.LookupByFile (str "f.go")).OpenBeads ∧
    (∃ r ∈ (flMiss.LookupByFileGlob matchAll (str "*")).OpenBeads ++
           (flMiss.LookupByFileGlob matchAll (str "*")).ClosedBeads,
      r.BeadID = oneRef.BeadID ∧
      (∃ e' ∈ flMiss.index.FileToBeads,
        matchAll (str "*") e'.1 = Except.ok true ∧ r ∈ e'.2) ∧
      lookupA r.BeadID flMiss.beads = none ∧
      (r.Status = str "closed" →
        r ∈ (flMiss.LookupByFileGlob matchAll (str "*")).ClosedBeads) ∧
      (r.Status ≠ str "closed" →
        r ∈ (flMiss.LookupByFileGlob matchAll (str "*")).OpenBeads)) :=
  ⟨by decide,
   (c10_missing_bead_keeps_snapshot flMiss (str "f.go") oneRefs oneRef
      (by decide) (by decide) (by decide)).1.2 (by decide),
   (c10_missing_bead_keeps_snapshot flMiss (str "f.go") oneRefs oneRef
      (by decide) (by decide) (by decide)).2 matchAll (str "*")
      (str "f.go", oneRefs) (by decide) rfl (by decide)⟩

end Correlation
